import Mathlib

/-!
Verification of the assistantkit hooks/bundle configuration framework.

This file shallowly embeds the canonical hook-configuration data model and
the per-tool adapters (claude, cursor, windsurf) of the repository, plus the
bundle generator's output routing, and proves/refutes the specification
claims about them.

Modelling conventions:
* Go string-typed enums (`core.Event`, `ClaudeEvent`, ...) are Lean `String`s.
* Go maps are association lists (`StrMap`) with unique keys; Go's
  `m[k] = append(m[k], v)` idiom is `smAppend`.  Iteration follows list
  order (Go map iteration order is unspecified; every property proved here
  is per-key and does not depend on inter-key order).
* JSON encode/decode (`Parse`/`Marshal` wrappers) are identities on the
  structured configs: the spec declares codecs out of scope, so
  `Parse ∘ Marshal` is embedded as `ToCore ∘ FromCore`.
* File I/O is modelled as pure computation of which (component, path) pairs
  get written.
-/

set_option autoImplicit false

universe u v

/-! ## String-keyed association maps (embedding of Go maps) -/

/-- A Go `map[string]α`, embedded as an insertion-ordered association list
with unique keys. -/
abbrev StrMap (α : Type u) : Type u := List (String × α)

/-- Map lookup (`v, ok := m[k]`). -/
def smGet {α : Type u} : StrMap α → String → Option α
  | [], _ => none
  | p :: rest, k => if p.1 = k then some p.2 else smGet rest k

/-- Map lookup with default (`m[k]` returning the zero value when absent). -/
def smGetD {α : Type u} (m : StrMap α) (k : String) (d : α) : α :=
  (smGet m k).getD d

/-- Map update (`m[k] = v`): replaces the first binding of `k`, or appends a
new binding at the end. -/
def smSet {α : Type u} : StrMap α → String → α → StrMap α
  | [], k, v => [(k, v)]
  | p :: rest, k, v => if p.1 = k then (k, v) :: rest else p :: smSet rest k v

/-- The keys of the map. -/
def smKeys {α : Type u} (m : StrMap α) : List String := m.map (·.1)

/-- The Go idiom `m[k] = append(m[k], v)` on a map of slices. -/
def smAppend {α : Type u} (m : StrMap (List α)) (k : String) (v : α) : StrMap (List α) :=
  smSet m k (smGetD m k [] ++ [v])

/-- Builds a map of slices by `smAppend`-ing a list of key/value pairs in
order, starting from `init`. -/
def smBuild {α : Type u} (ps : List (String × α)) (init : StrMap (List α)) : StrMap (List α) :=
  ps.foldl (fun m p => smAppend m p.1 p.2) init

/-- Flattens a map of slices back into key/value pairs, in map order. -/
def smFlat {α : Type u} : StrMap (List α) → List (String × α)
  | [] => []
  | p :: rest => p.2.map (fun v => (p.1, v)) ++ smFlat rest

/-- Total weight of all values in a map of slices. -/
def smTotal {α : Type u} (m : StrMap (List α)) (w : α → Nat) : Nat :=
  (m.map (fun p => (p.2.map w).sum)).sum

/-- Keeps the value of a pair when its key is `k`, used with `List.filterMap`. -/
def keyFM {α : Type u} (k : String) (p : String × α) : Option α :=
  if p.1 = k then some p.2 else none

/-! ## Canonical data model (hooks/core) -/

/-- Canonical hook event (`core.Event`, a Go string type). -/
abbrev Event : Type := String

def BeforeFileRead : Event := "before_file_read"
def AfterFileRead : Event := "after_file_read"
def BeforeFileWrite : Event := "before_file_write"
def AfterFileWrite : Event := "after_file_write"
def BeforeCommand : Event := "before_command"
def AfterCommand : Event := "after_command"
def BeforeMCP : Event := "before_mcp"
def AfterMCP : Event := "after_mcp"
def BeforePrompt : Event := "before_prompt"
def OnStop : Event := "on_stop"
def OnSessionStart : Event := "on_session_start"
def OnSessionEnd : Event := "on_session_end"
def AfterResponse : Event := "after_response"
def AfterThought : Event := "after_thought"
def OnPermission : Event := "on_permission"
def OnNotification : Event := "on_notification"
def BeforeCompact : Event := "before_compact"
def OnSubagentStop : Event := "on_subagent_stop"
def BeforeTabRead : Event := "before_tab_read"
def AfterTabEdit : Event := "after_tab_edit"

/-- `Event.IsBeforeEvent` from hooks/core/event.go. -/
def isBeforeEvent (e : Event) : Bool :=
  e = BeforeFileRead || e = BeforeFileWrite || e = BeforeCommand || e = BeforeMCP ||
    e = BeforePrompt || e = BeforeCompact || e = BeforeTabRead

/-- `Event.IsAfterEvent` from hooks/core/event.go. -/
def isAfterEvent (e : Event) : Bool :=
  e = AfterFileRead || e = AfterFileWrite || e = AfterCommand || e = AfterMCP ||
    e = AfterResponse || e = AfterThought || e = AfterTabEdit

/-- `Event.CanBlock` from hooks/core/event.go. -/
def canBlock (e : Event) : Bool :=
  isBeforeEvent e || e = OnPermission

/-- `core.ToolSupport`. -/
structure ToolSupport where
  claude : Bool
  cursor : Bool
  windsurf : Bool
deriving Repr, DecidableEq

/-- `Event.GetToolSupport` from hooks/core/event.go (default case: all false). -/
def getToolSupport (e : Event) : ToolSupport :=
  if e = BeforeFileRead then ⟨true, true, true⟩
  else if e = AfterFileRead then ⟨true, false, true⟩
  else if e = BeforeFileWrite then ⟨true, false, true⟩
  else if e = AfterFileWrite then ⟨true, true, true⟩
  else if e = BeforeCommand then ⟨true, true, true⟩
  else if e = AfterCommand then ⟨true, true, true⟩
  else if e = BeforeMCP then ⟨true, true, true⟩
  else if e = AfterMCP then ⟨true, true, true⟩
  else if e = BeforePrompt then ⟨true, true, true⟩
  else if e = OnStop then ⟨true, true, false⟩
  else if e = OnSessionStart then ⟨true, false, false⟩
  else if e = OnSessionEnd then ⟨true, false, false⟩
  else if e = AfterResponse then ⟨false, true, false⟩
  else if e = AfterThought then ⟨false, true, false⟩
  else if e = OnPermission then ⟨true, false, false⟩
  else if e = OnNotification then ⟨true, false, false⟩
  else if e = BeforeCompact then ⟨true, false, false⟩
  else if e = OnSubagentStop then ⟨true, false, false⟩
  else if e = BeforeTabRead then ⟨false, true, false⟩
  else if e = AfterTabEdit then ⟨false, true, false⟩
  else ⟨false, false, false⟩

/-- Canonical `core.Hook`.  The `type` field holds `core.HookType` ("command"
or "prompt", or "" when unset). -/
structure Hook where
  type : String
  command : String
  prompt : String
  timeout : Int
  showOutput : Bool
  workingDir : String
deriving Repr, DecidableEq

/-- `core.HookEntry`: optional matcher plus ordered hooks. -/
structure HookEntry where
  matcher : String
  hooks : List Hook
deriving Repr, DecidableEq

/-- Canonical `core.Config`. -/
structure Config where
  version : Int
  hooks : StrMap (List HookEntry)
  disableAllHooks : Bool
  allowManagedHooksOnly : Bool
deriving Repr, DecidableEq

/-- `core.NewCommandHook`. -/
def newCommandHook (command : String) : Hook :=
  { type := "command", command := command, prompt := "", timeout := 0,
    showOutput := false, workingDir := "" }

/-- `core.NewPromptHook`. -/
def newPromptHook (prompt : String) : Hook :=
  { type := "prompt", command := "", prompt := prompt, timeout := 0,
    showOutput := false, workingDir := "" }

/-- The entry-list update loop inside `Config.AddHookWithMatcher`: append the
hook to the first entry with the same matcher, else append a new entry. -/
def addEntryHook : List HookEntry → String → Hook → List HookEntry
  | [], matcher, hook => [{ matcher := matcher, hooks := [hook] }]
  | en :: rest, matcher, hook =>
    if en.matcher = matcher then { en with hooks := en.hooks ++ [hook] } :: rest
    else en :: addEntryHook rest matcher hook

/-- `Config.AddHookWithMatcher` from hooks/core/config.go. -/
def Config.addHookWithMatcher (c : Config) (event : Event) (matcher : String) (hook : Hook) :
    Config :=
  { c with hooks := smSet c.hooks event (addEntryHook (smGetD c.hooks event []) matcher hook) }

/-- `Config.AddHook`. -/
def Config.addHook (c : Config) (event : Event) (hook : Hook) : Config :=
  c.addHookWithMatcher event "" hook

/-- Sum of hook counts over an entry list. -/
def entryListCount (l : List HookEntry) : Nat :=
  (l.map (fun en => en.hooks.length)).sum

/-- `Config.HookCount`: total number of hooks across all events. -/
def Config.hookCount (c : Config) : Nat :=
  (c.hooks.map (fun p => entryListCount p.2)).sum

/-- `Config.HasHooks` (`len(c.Hooks) > 0`). -/
def Config.hasHooks (c : Config) : Bool :=
  !c.hooks.isEmpty

/-- `Config.FilterByTool` from hooks/core/config.go: keeps only events
supported by the named tool; an unrecognized tool name supports nothing. -/
def Config.filterByTool (c : Config) (tool : String) : Config :=
  { version := c.version,
    disableAllHooks := c.disableAllHooks,
    allowManagedHooksOnly := c.allowManagedHooksOnly,
    hooks := c.hooks.filter (fun p =>
      let support := getToolSupport p.1
      if tool = "claude" then support.claude
      else if tool = "cursor" then support.cursor
      else if tool = "windsurf" then support.windsurf
      else false) }

/-- The ordered hooks recorded under event `e` and matcher `m`
(concatenation over the entries for `e` whose matcher is `m`). -/
def entriesHooksFor : List HookEntry → String → List Hook
  | [], _ => []
  | en :: rest, m =>
    (if en.matcher = m then en.hooks else []) ++ entriesHooksFor rest m

/-- Per-(event, matcher) ordered hook list of a canonical config. -/
def Config.hooksFor (c : Config) (e : Event) (m : String) : List Hook :=
  entriesHooksFor (smGetD c.hooks e []) m

/-! ## Claude adapter (hooks/claude) -/

/-- A Claude-native hook (`claude.Hook`). -/
structure ClaudeHook where
  type : String
  command : String
  prompt : String
  timeout : Int
deriving Repr, DecidableEq

/-- A Claude-native hook entry (`claude.HookEntry`). -/
structure ClaudeHookEntry where
  matcher : String
  hooks : List ClaudeHook
deriving Repr, DecidableEq

/-- The hooks section of Claude's settings.json (`claude.Config`); keys are
`ClaudeEvent` strings. -/
structure ClaudeConfig where
  hooks : StrMap (List ClaudeHookEntry)
  disableAllHooks : Bool
  allowManagedHooksOnly : Bool
deriving Repr, DecidableEq

/-- claude `eventMapping`: canonical event → Claude event name. -/
def claudeEventMapping (e : Event) : Option String :=
  if e = BeforeFileRead then some "PreToolUse"
  else if e = AfterFileRead then some "PostToolUse"
  else if e = BeforeFileWrite then some "PreToolUse"
  else if e = AfterFileWrite then some "PostToolUse"
  else if e = BeforeCommand then some "PreToolUse"
  else if e = AfterCommand then some "PostToolUse"
  else if e = BeforeMCP then some "PreToolUse"
  else if e = AfterMCP then some "PostToolUse"
  else if e = BeforePrompt then some "UserPromptSubmit"
  else if e = OnStop then some "Stop"
  else if e = OnSessionStart then some "SessionStart"
  else if e = OnSessionEnd then some "SessionEnd"
  else if e = OnPermission then some "PermissionRequest"
  else if e = OnNotification then some "Notification"
  else if e = BeforeCompact then some "PreCompact"
  else if e = OnSubagentStop then some "SubagentStop"
  else none

/-- claude `reverseEventMapping`: Claude event → canonical event (the
unambiguous Claude events only). -/
def claudeReverseEventMapping (ce : String) : Option Event :=
  if ce = "UserPromptSubmit" then some BeforePrompt
  else if ce = "Stop" then some OnStop
  else if ce = "SessionStart" then some OnSessionStart
  else if ce = "SessionEnd" then some OnSessionEnd
  else if ce = "PermissionRequest" then some OnPermission
  else if ce = "Notification" then some OnNotification
  else if ce = "PreCompact" then some BeforeCompact
  else if ce = "SubagentStop" then some OnSubagentStop
  else none

/-- claude `matcherToCanonicalEventBefore`. -/
def matcherToCanonicalEventBefore (m : String) : Option Event :=
  if m = "Read" then some BeforeFileRead
  else if m = "Write" then some BeforeFileWrite
  else if m = "Edit" then some BeforeFileWrite
  else if m = "Write|Edit" then some BeforeFileWrite
  else if m = "Bash" then some BeforeCommand
  else none

/-- claude `matcherToCanonicalEventAfter`. -/
def matcherToCanonicalEventAfter (m : String) : Option Event :=
  if m = "Read" then some AfterFileRead
  else if m = "Write" then some AfterFileWrite
  else if m = "Edit" then some AfterFileWrite
  else if m = "Write|Edit" then some AfterFileWrite
  else if m = "Bash" then some AfterCommand
  else none

/-- claude `canonicalEventToMatcher`. -/
def canonicalEventToMatcher (e : Event) : Option String :=
  if e = BeforeFileRead then some "Read"
  else if e = AfterFileRead then some "Read"
  else if e = BeforeFileWrite then some "Write|Edit"
  else if e = AfterFileWrite then some "Write|Edit"
  else if e = BeforeCommand then some "Bash"
  else if e = AfterCommand then some "Bash"
  else none

/-- `Adapter.claudeToCanonicalEvent`: direct reverse mapping first, then
matcher disambiguation for PreToolUse/PostToolUse with an MCP fallback;
unknown Claude events yield the empty canonical event. -/
def claudeToCanonicalEvent (ce : String) (matcher : String) : Event :=
  match claudeReverseEventMapping ce with
  | some e => e
  | none =>
    if ce = "PreToolUse" then
      match matcherToCanonicalEventBefore matcher with
      | some e => e
      | none => BeforeMCP
    else if ce = "PostToolUse" then
      match matcherToCanonicalEventAfter matcher with
      | some e => e
      | none => AfterMCP
    else ""

/-- `Adapter.canonicalToClaudeEvent`: Claude event name and default matcher
for a canonical event, or ("", "") when Claude does not support it. -/
def canonicalToClaudeEvent (e : Event) : String × String :=
  if !(getToolSupport e).claude then ("", "")
  else
    let matcher := (canonicalEventToMatcher e).getD ""
    match claudeEventMapping e with
    | some ce => (ce, matcher)
    | none => ("", "")

/-- Hook conversion inside `Adapter.ToCore` (claude): copies
command/prompt/timeout, recognizes the two explicit type tags. -/
def claudeHookToCore (h : ClaudeHook) : Hook :=
  { type := if h.type = "command" then "command"
            else if h.type = "prompt" then "prompt"
            else "",
    command := h.command, prompt := h.prompt, timeout := h.timeout,
    showOutput := false, workingDir := "" }

/-- Hook conversion inside `Adapter.FromCore` (claude): copies
command/prompt/timeout and infers a missing type tag from which payload is
non-empty. -/
def claudeHookFromCore (h : Hook) : ClaudeHook :=
  { command := h.command, prompt := h.prompt, timeout := h.timeout,
    type := if h.type = "command" then "command"
            else if h.type = "prompt" then "prompt"
            else if h.command ≠ "" then "command"
            else if h.prompt ≠ "" then "prompt"
            else "" }

/-- `Adapter.ToCore` (claude): every native entry is appended under the
canonical event determined by the Claude event name and the entry's matcher. -/
def claudeToCore (cc : ClaudeConfig) : Config :=
  { version := 0,
    disableAllHooks := cc.disableAllHooks,
    allowManagedHooksOnly := cc.allowManagedHooksOnly,
    hooks := cc.hooks.foldl (fun acc p =>
      p.2.foldl (fun acc entry =>
        smAppend acc (claudeToCanonicalEvent p.1 entry.matcher)
          { matcher := entry.matcher, hooks := entry.hooks.map claudeHookToCore }) acc) [] }

/-- `Adapter.FromCore` (claude): unsupported canonical events are skipped;
entries are emitted under the mapped Claude event with the entry's matcher,
defaulting to the event's canonical matcher when empty. -/
def claudeFromCore (cfg : Config) : ClaudeConfig :=
  { disableAllHooks := cfg.disableAllHooks,
    allowManagedHooksOnly := cfg.allowManagedHooksOnly,
    hooks := cfg.hooks.foldl (fun acc p =>
      if (canonicalToClaudeEvent p.1).1 = "" then acc
      else p.2.foldl (fun acc entry =>
        smAppend acc (canonicalToClaudeEvent p.1).1
          { matcher := if entry.matcher = "" then (canonicalToClaudeEvent p.1).2
                       else entry.matcher,
            hooks := entry.hooks.map claudeHookFromCore }) acc) [] }

/-- Total number of hooks in a Claude-native config. -/
def claudeNativeCount (cc : ClaudeConfig) : Nat :=
  smTotal cc.hooks (fun en => en.hooks.length)

/-! ## Cursor adapter (hooks/cursor) -/

/-- A Cursor-native hook (`cursor.Hook`): command only. -/
structure CursorHook where
  command : String
deriving Repr, DecidableEq

/-- Cursor's hooks.json (`cursor.Config`); keys are `CursorEvent` strings. -/
structure CursorConfig where
  version : Int
  hooks : StrMap (List CursorHook)
deriving Repr, DecidableEq

/-- cursor `eventMapping`: canonical event → Cursor event name. -/
def cursorEventMapping (e : Event) : Option String :=
  if e = BeforeFileRead then some "beforeReadFile"
  else if e = AfterFileWrite then some "afterFileEdit"
  else if e = BeforeCommand then some "beforeShellExecution"
  else if e = AfterCommand then some "afterShellExecution"
  else if e = BeforeMCP then some "beforeMCPExecution"
  else if e = AfterMCP then some "afterMCPExecution"
  else if e = BeforePrompt then some "beforeSubmitPrompt"
  else if e = OnStop then some "stop"
  else if e = AfterResponse then some "afterAgentResponse"
  else if e = AfterThought then some "afterAgentThought"
  else if e = BeforeTabRead then some "beforeTabFileRead"
  else if e = AfterTabEdit then some "afterTabFileEdit"
  else none

/-- cursor `reverseEventMapping`: Cursor event name → canonical event. -/
def cursorReverseEventMapping (k : String) : Option Event :=
  if k = "beforeShellExecution" then some BeforeCommand
  else if k = "afterShellExecution" then some AfterCommand
  else if k = "beforeMCPExecution" then some BeforeMCP
  else if k = "afterMCPExecution" then some AfterMCP
  else if k = "beforeReadFile" then some BeforeFileRead
  else if k = "afterFileEdit" then some AfterFileWrite
  else if k = "beforeSubmitPrompt" then some BeforePrompt
  else if k = "afterAgentResponse" then some AfterResponse
  else if k = "afterAgentThought" then some AfterThought
  else if k = "stop" then some OnStop
  else if k = "beforeTabFileRead" then some BeforeTabRead
  else if k = "afterTabFileEdit" then some AfterTabEdit
  else none

/-- Hook conversion inside `Adapter.ToCore` (cursor): command hooks only. -/
def cursorHookToCore (h : CursorHook) : Hook :=
  { type := "command", command := h.command, prompt := "", timeout := 0,
    showOutput := false, workingDir := "" }

/-- `Adapter.ToCore` (cursor): unrecognized Cursor events are skipped; each
recognized native key contributes one matcher-less canonical entry. -/
def cursorToCore (cc : CursorConfig) : Config :=
  { version := cc.version, disableAllHooks := false, allowManagedHooksOnly := false,
    hooks := cc.hooks.foldl (fun acc p =>
      match cursorReverseEventMapping p.1 with
      | none => acc
      | some e =>
        smAppend acc e { matcher := "", hooks := p.2.map cursorHookToCore }) [] }

/-- `Adapter.FromCore` (cursor): unsupported canonical events are skipped;
only hooks with a non-empty command survive (cursor supports only command
hooks). -/
def cursorFromCore (cfg : Config) : CursorConfig :=
  { version := if cfg.version > 0 then cfg.version else 1,
    hooks := cfg.hooks.foldl (fun acc p =>
      match cursorEventMapping p.1 with
      | none => acc
      | some k => p.2.foldl (fun acc entry =>
          entry.hooks.foldl (fun acc h =>
            if h.command ≠ "" then smAppend acc k { command := h.command } else acc) acc) acc) [] }

/-- Total number of hooks in a Cursor-native config. -/
def cursorNativeCount (cc : CursorConfig) : Nat :=
  smTotal cc.hooks (fun _ => 1)

/-! ## Windsurf adapter (hooks/windsurf) -/

/-- A Windsurf-native hook (`windsurf.Hook`). -/
structure WindsurfHook where
  command : String
  showOutput : Bool
  workingDirectory : String
deriving Repr, DecidableEq

/-- Windsurf's hooks.json (`windsurf.Config`); keys are `WindsurfEvent`
strings. -/
structure WindsurfConfig where
  hooks : StrMap (List WindsurfHook)
deriving Repr, DecidableEq

/-- windsurf `eventMapping`: canonical event → Windsurf event name. -/
def windsurfEventMapping (e : Event) : Option String :=
  if e = BeforeFileRead then some "pre_read_code"
  else if e = AfterFileRead then some "post_read_code"
  else if e = BeforeFileWrite then some "pre_write_code"
  else if e = AfterFileWrite then some "post_write_code"
  else if e = BeforeCommand then some "pre_run_command"
  else if e = AfterCommand then some "post_run_command"
  else if e = BeforeMCP then some "pre_mcp_tool_use"
  else if e = AfterMCP then some "post_mcp_tool_use"
  else if e = BeforePrompt then some "pre_user_prompt"
  else none

/-- windsurf `reverseEventMapping`: Windsurf event name → canonical event. -/
def windsurfReverseEventMapping (k : String) : Option Event :=
  if k = "pre_read_code" then some BeforeFileRead
  else if k = "post_read_code" then some AfterFileRead
  else if k = "pre_write_code" then some BeforeFileWrite
  else if k = "post_write_code" then some AfterFileWrite
  else if k = "pre_run_command" then some BeforeCommand
  else if k = "post_run_command" then some AfterCommand
  else if k = "pre_mcp_tool_use" then some BeforeMCP
  else if k = "post_mcp_tool_use" then some AfterMCP
  else if k = "pre_user_prompt" then some BeforePrompt
  else none

/-- Hook conversion inside `Adapter.ToCore` (windsurf). -/
def windsurfHookToCore (h : WindsurfHook) : Hook :=
  { type := "command", command := h.command, prompt := "", timeout := 0,
    showOutput := h.showOutput, workingDir := h.workingDirectory }

/-- `Adapter.ToCore` (windsurf). -/
def windsurfToCore (wc : WindsurfConfig) : Config :=
  { version := 0, disableAllHooks := false, allowManagedHooksOnly := false,
    hooks := wc.hooks.foldl (fun acc p =>
      match windsurfReverseEventMapping p.1 with
      | none => acc
      | some e =>
        smAppend acc e { matcher := "", hooks := p.2.map windsurfHookToCore }) [] }

/-- `Adapter.FromCore` (windsurf): unsupported canonical events are skipped;
only hooks with a non-empty command survive. -/
def windsurfFromCore (cfg : Config) : WindsurfConfig :=
  { hooks := cfg.hooks.foldl (fun acc p =>
      match windsurfEventMapping p.1 with
      | none => acc
      | some k => p.2.foldl (fun acc entry =>
          entry.hooks.foldl (fun acc h =>
            if h.command ≠ "" then
              smAppend acc k
                { command := h.command, showOutput := h.showOutput,
                  workingDirectory := h.workingDir }
            else acc) acc) acc) [] }

/-- Total number of hooks in a Windsurf-native config. -/
def windsurfNativeCount (wc : WindsurfConfig) : Nat :=
  smTotal wc.hooks (fun _ => 1)

/-! ## Adapter registry (hooks/core)

The `AdapterRegistry` implementation file (hooks/core/adapter.go) is not in
the source tree; only its tests (hooks/core/adapter_test.go) and the
`ConversionError` type (hooks/core/errors.go) are.  The registry is
therefore modelled from the spec (§4.2, §7, §8). -/

/-- An adapter held by the registry.  `Parse`/`Marshal` are modelled as
total: the spec puts codec failures out of scope, and the tests exercise
only succeeding mocks. -/
structure HookAdapter where
  name : String
  parse : String → Config
  marshal : Config → String

/-- `core.ConversionError` from hooks/core/errors.go: from/to adapter names,
optional event, wrapped cause (modelled as a message). -/
structure ConversionError where
  fromName : String
  toName : String
  event : Event
  err : String
deriving Repr, DecidableEq

/-- Modelled from the spec: `AdapterRegistry.Convert` (hooks/core/adapter.go
is absent from the source tree).  Spec §4.2: "Convert(data, from, to): looks
up both adapters, reporting which side was unresolved on failure; success =
toAdapter.Marshal(fromAdapter.Parse(data))"; failures are `ConversionError`s
carrying the from/to names (per TestAdapterRegistryConvertUnknownSource /
...UnknownTarget). -/
def registryConvert (reg : StrMap HookAdapter) (data fromN toN : String) :
    Except ConversionError String :=
  match smGet reg fromN with
  | none => .error { fromName := fromN, toName := toN, event := "",
                     err := "unknown source adapter" }
  | some fromAdapter =>
    match smGet reg toN with
    | none => .error { fromName := fromN, toName := toN, event := "",
                       err := "unknown target adapter" }
    | some toAdapter => .ok (toAdapter.marshal (fromAdapter.parse data))

/-! ## Bundle generator (bundle package)

File writes are modelled as the pure list of (component-label, path) pairs
that a successful `Bundle.Generate(tool, outputDir)` produces; `os.MkdirAll`
and I/O failures are out of the model.  `filepath.Join` is modelled as
"/"-joining without path cleaning. -/

/-- `bundle.ToolConfig`: per-tool output locations; "" means the tool does
not support that artifact kind. -/
structure ToolConfig where
  pluginDir : String
  pluginFile : String
  skillsDir : String
  commandsDir : String
  hooksDir : String
  hooksFile : String
  agentsDir : String
  mcpDir : String
  mcpFile : String
  contextDir : String
  contextFile : String
deriving Repr, DecidableEq

/-- `bundle.DefaultToolConfigs`. -/
def defaultToolConfigs (tool : String) : Option ToolConfig :=
  if tool = "claude" then
    some { pluginDir := ".claude-plugin", pluginFile := "plugin.json",
           skillsDir := "skills", commandsDir := "commands",
           hooksDir := "", hooksFile := "", agentsDir := "agents",
           mcpDir := "", mcpFile := "", contextDir := ".", contextFile := "CLAUDE.md" }
  else if tool = "kiro" then
    some { pluginDir := "", pluginFile := "", skillsDir := "", commandsDir := "",
           hooksDir := "", hooksFile := "", agentsDir := ".kiro/agents",
           mcpDir := ".kiro/settings", mcpFile := "mcp.json",
           contextDir := "", contextFile := "" }
  else if tool = "gemini" then
    some { pluginDir := ".", pluginFile := "gemini-extension.json",
           skillsDir := "", commandsDir := "commands", hooksDir := "", hooksFile := "",
           agentsDir := "agents", mcpDir := "", mcpFile := "",
           contextDir := "", contextFile := "" }
  else if tool = "cursor" then
    some { pluginDir := "", pluginFile := "", skillsDir := "", commandsDir := "",
           hooksDir := ".", hooksFile := ".cursorrules", agentsDir := "",
           mcpDir := ".cursor", mcpFile := "mcp.json",
           contextDir := ".", contextFile := ".cursorrules" }
  else if tool = "codex" then
    some { pluginDir := "", pluginFile := "", skillsDir := "skills",
           commandsDir := "prompts", hooksDir := "", hooksFile := "",
           agentsDir := "agents", mcpDir := ".codex", mcpFile := "mcp.json",
           contextDir := ".", contextFile := "AGENTS.md" }
  else if tool = "vscode" then
    some { pluginDir := "", pluginFile := "", skillsDir := "", commandsDir := "",
           hooksDir := "", hooksFile := "", agentsDir := "",
           mcpDir := ".vscode", mcpFile := "mcp.json",
           contextDir := "", contextFile := "" }
  else none

/-- `bundle.SupportedTools`. -/
def supportedTools : List String := ["claude", "kiro", "gemini", "cursor", "codex"]

/-- The per-domain adapter registries as populated by the bundle package's
side-effect imports (see the blank imports of bundle/generate.go). -/
def skillsAdapters : List String := ["claude", "codex"]

def commandsAdapters : List String := ["claude", "codex", "gemini"]

def agentsAdapters : List String := ["claude", "codex", "gemini", "kiro"]

def hooksAdapters : List String := ["claude", "cursor", "windsurf"]

def mcpAdapters : List String := ["claude", "codex", "cursor", "kiro", "vscode"]

def contextConverters : List String := ["claude"]

def pluginsAdapters : List String := ["claude", "gemini"]

/-- `bundle.Bundle`, restricted to what output routing inspects: collection
names and emptiness.  `Plugin` is always present (`bundle.New` creates it);
`Hooks == nil` is folded into emptiness of the hooks config. -/
structure Bundle where
  skills : List String
  commands : List String
  agents : List String
  hooks : Config
  hasContext : Bool
  mcpServers : List String
deriving Repr, DecidableEq

/-- Model of `filepath.Join` (no path cleaning). -/
def pathJoin (a b : String) : String := a ++ "/" ++ b

/-- `Bundle.generatePlugin` output: skipped when the tool declares no plugin
manifest; claude takes the consolidated branch and always writes; other
tools need a registered plugins adapter. -/
def generatePluginFiles (tool outputDir : String) (cfg : ToolConfig) :
    List (String × String) :=
  if cfg.pluginDir = "" ∨ cfg.pluginFile = "" then []
  else if tool = "claude" then
    [("plugin", pathJoin (pathJoin outputDir cfg.pluginDir) cfg.pluginFile)]
  else if pluginsAdapters.contains tool then
    [("plugin", pathJoin (pathJoin outputDir cfg.pluginDir) cfg.pluginFile)]
  else []

/-- `Bundle.generateSkills` output. -/
def generateSkillsFiles (b : Bundle) (tool outputDir : String) (cfg : ToolConfig) :
    List (String × String) :=
  if b.skills = [] ∨ cfg.skillsDir = "" then []
  else if skillsAdapters.contains tool then
    b.skills.map (fun s => ("skill:" ++ s, pathJoin (pathJoin outputDir cfg.skillsDir) s))
  else []

/-- `Bundle.generateCommands` output. -/
def generateCommandsFiles (b : Bundle) (tool outputDir : String) (cfg : ToolConfig) :
    List (String × String) :=
  if b.commands = [] ∨ cfg.commandsDir = "" then []
  else if commandsAdapters.contains tool then
    b.commands.map (fun c => ("command:" ++ c, pathJoin (pathJoin outputDir cfg.commandsDir) c))
  else []

/-- `Bundle.generateHooks` output: skipped when the hooks config is empty or
the tool declares no hooks path. -/
def generateHooksFiles (b : Bundle) (tool outputDir : String) (cfg : ToolConfig) :
    List (String × String) :=
  if b.hooks.hasHooks = false ∨ cfg.hooksDir = "" then []
  else if hooksAdapters.contains tool then
    [("hooks", pathJoin (pathJoin outputDir cfg.hooksDir) cfg.hooksFile)]
  else []

/-- `Bundle.generateAgents` output. -/
def generateAgentsFiles (b : Bundle) (tool outputDir : String) (cfg : ToolConfig) :
    List (String × String) :=
  if b.agents = [] ∨ cfg.agentsDir = "" then []
  else if agentsAdapters.contains tool then
    b.agents.map (fun a => ("agent:" ++ a, pathJoin (pathJoin outputDir cfg.agentsDir) a))
  else []

/-- `Bundle.generateMCP` output: skipped when there are no MCP servers or
the tool declares no MCP path. -/
def generateMCPFiles (b : Bundle) (tool outputDir : String) (cfg : ToolConfig) :
    List (String × String) :=
  if b.mcpServers = [] ∨ cfg.mcpDir = "" then []
  else if mcpAdapters.contains tool then
    [("mcp", pathJoin (pathJoin outputDir cfg.mcpDir) cfg.mcpFile)]
  else []

/-- `Bundle.generateContext` output: skipped when there is no context or the
tool declares no context file; requires a registered context converter. -/
def generateContextFiles (b : Bundle) (tool outputDir : String) (cfg : ToolConfig) :
    List (String × String) :=
  if b.hasContext = false ∨ cfg.contextFile = "" then []
  else if contextConverters.contains tool then
    [("context", pathJoin (pathJoin outputDir cfg.contextDir) cfg.contextFile)]
  else []

/-- `Bundle.Generate(tool, outputDir)`: the (component, path) pairs written,
in generation order; an unsupported tool writes nothing (Go returns a
GenerateError). -/
def Bundle.generatedFiles (b : Bundle) (tool outputDir : String) :
    List (String × String) :=
  match defaultToolConfigs tool with
  | none => []
  | some cfg =>
    generatePluginFiles tool outputDir cfg ++ generateSkillsFiles b tool outputDir cfg ++
    generateCommandsFiles b tool outputDir cfg ++ generateHooksFiles b tool outputDir cfg ++
    generateAgentsFiles b tool outputDir cfg ++ generateMCPFiles b tool outputDir cfg ++
    generateContextFiles b tool outputDir cfg

/-! ## Proof-support definitions: flattened key/value pair views -/

/-- The (claude event, native entry) pairs `claudeFromCore` appends, in
order. -/
def claudeFromPairs : StrMap (List HookEntry) → List (String × ClaudeHookEntry)
  | [] => []
  | p :: rest =>
    (if (canonicalToClaudeEvent p.1).1 = "" then []
     else p.2.map (fun en =>
       ((canonicalToClaudeEvent p.1).1,
        ({ matcher := if en.matcher = "" then (canonicalToClaudeEvent p.1).2 else en.matcher,
           hooks := en.hooks.map claudeHookFromCore } : ClaudeHookEntry)))) ++
      claudeFromPairs rest

/-- The (canonical event, entry) pairs `claudeToCore` appends, in order. -/
def claudeToPairs : StrMap (List ClaudeHookEntry) → List (Event × HookEntry)
  | [] => []
  | p :: rest =>
    p.2.map (fun en =>
      (claudeToCanonicalEvent p.1 en.matcher,
       ({ matcher := en.matcher, hooks := en.hooks.map claudeHookToCore } : HookEntry))) ++
      claudeToPairs rest

/-- Per-entry-list pairs for the command-only adapters (cursor, windsurf):
each surviving hook contributes one (native key, converted hook) pair. -/
def entryHooksPairs {τ : Type} (k : String) (f : Hook → τ) :
    List HookEntry → List (String × τ)
  | [] => []
  | en :: rest =>
    en.hooks.filterMap (fun h => if h.command ≠ "" then some (k, f h) else none) ++
      entryHooksPairs k f rest

/-- The (native key, native hook) pairs a command-only `FromCore` appends,
in order. -/
def simpleFromPairs {τ : Type} (emap : Event → Option String) (f : Hook → τ) :
    StrMap (List HookEntry) → List (String × τ)
  | [] => []
  | p :: rest =>
    (match emap p.1 with
     | none => []
     | some k => entryHooksPairs k f p.2) ++ simpleFromPairs emap f rest

/-- The (canonical event, entry) pairs a command-only `ToCore` appends, in
order: one matcher-less entry per recognized native key. -/
def simpleToPairs {τ : Type} (rmap : String → Option Event) (g : τ → Hook) :
    StrMap (List τ) → List (Event × HookEntry)
  | [] => []
  | p :: rest =>
    (match rmap p.1 with
     | none => []
     | some e => [(e, ({ matcher := "", hooks := p.2.map g } : HookEntry))]) ++
      simpleToPairs rmap g rest

/-! ## Normal forms and counting helpers -/

/-- The default Claude matcher for a canonical event ("" when none). -/
def claudeDefaultMatcher (e : Event) : String :=
  (canonicalEventToMatcher e).getD ""

/-- Whether claude's FromCore emits a canonical event (support check plus
eventMapping lookup). -/
def claudeMapped (e : Event) : Bool :=
  (canonicalToClaudeEvent e).1 ≠ ""

/-- Whether cursor's eventMapping covers a canonical event. -/
def cursorMapped (e : Event) : Bool :=
  (cursorEventMapping e).isSome

/-- Whether windsurf's eventMapping covers a canonical event. -/
def windsurfMapped (e : Event) : Bool :=
  (windsurfEventMapping e).isSome

/-- Claude-normal configs: unique event keys, claude-supported events only,
entry matchers equal to the event's default Claude matcher, and hooks with
an explicit supported type using only fields claude round-trips. -/
def claudeNormalForm (c : Config) : Prop :=
  (smKeys c.hooks).Nodup ∧
  ∀ p ∈ c.hooks, (getToolSupport p.1).claude = true ∧
    ∀ en ∈ p.2, en.matcher = claudeDefaultMatcher p.1 ∧
      ∀ h ∈ en.hooks, (h.type = "command" ∨ h.type = "prompt") ∧
        h.showOutput = false ∧ h.workingDir = ""

/-- Cursor-normal configs: unique keys, cursor-supported events, matcher-less
entries, explicit command hooks using only fields cursor round-trips. -/
def cursorNormalForm (c : Config) : Prop :=
  (smKeys c.hooks).Nodup ∧
  ∀ p ∈ c.hooks, (cursorEventMapping p.1).isSome ∧
    ∀ en ∈ p.2, en.matcher = "" ∧
      ∀ h ∈ en.hooks, h.type = "command" ∧ h.command ≠ "" ∧ h.prompt = "" ∧
        h.timeout = 0 ∧ h.showOutput = false ∧ h.workingDir = ""

/-- Windsurf-normal configs: like cursor-normal, but showOutput/workingDir
are preserved by windsurf and hence unconstrained. -/
def windsurfNormalForm (c : Config) : Prop :=
  (smKeys c.hooks).Nodup ∧
  ∀ p ∈ c.hooks, (windsurfEventMapping p.1).isSome ∧
    ∀ en ∈ p.2, en.matcher = "" ∧
      ∀ h ∈ en.hooks, h.type = "command" ∧ h.command ≠ "" ∧ h.prompt = "" ∧
        h.timeout = 0

/-- Restriction of a config to the events satisfying `pred`. -/
def Config.restrictEvents (c : Config) (pred : Event → Bool) : Config :=
  { c with hooks := c.hooks.filter (fun p => pred p.1) }

/-- Weighted hook count over the events satisfying `pred`. -/
def Config.countHooksUnder (c : Config) (pred : Event → Bool) (w : Hook → Nat) : Nat :=
  ((c.hooks.filter (fun p => pred p.1)).map
    (fun p => (p.2.map (fun en => (en.hooks.map w).sum)).sum)).sum

/-- Hooks of a Cursor-native config under keys the adapter recognizes. -/
def cursorRecognizedCount (cc : CursorConfig) : Nat :=
  ((cc.hooks.filter (fun p => (cursorReverseEventMapping p.1).isSome)).map
    (fun p => p.2.length)).sum

/-- Hooks of a Windsurf-native config under keys the adapter recognizes. -/
def windsurfRecognizedCount (wc : WindsurfConfig) : Nat :=
  ((wc.hooks.filter (fun p => (windsurfReverseEventMapping p.1).isSome)).map
    (fun p => p.2.length)).sum

/-- Hooks of a Claude-native config under keys the adapter recognizes
(direct reverse mapping, PreToolUse, or PostToolUse). -/
def claudeRecognizedCount (cc : ClaudeConfig) : Nat :=
  ((cc.hooks.filter (fun p =>
      (claudeReverseEventMapping p.1).isSome || p.1 = "PreToolUse" || p.1 = "PostToolUse")).map
    (fun p => (p.2.map (fun en => en.hooks.length)).sum)).sum

/-! ## Concrete inputs for counterexamples and witnesses -/

/-- A plain command hook. -/
def exCmdHook : Hook :=
  { type := "command", command := "echo hi", prompt := "", timeout := 0,
    showOutput := false, workingDir := "" }

/-- A plain prompt hook. -/
def exPromptHook : Hook :=
  { type := "prompt", command := "", prompt := "Is this safe?", timeout := 0,
    showOutput := false, workingDir := "" }

/-- C1 counterexample input: a matcher-less command hook under
`before_command`, which is claude-supported with a claude-supported hook
type. -/
def exC1Config : Config :=
  { version := 0,
    hooks := [("before_command", [{ matcher := "", hooks := [exCmdHook] }])],
    disableAllHooks := false, allowManagedHooksOnly := false }

/-- C1 witness input: a claude-normal config (default matchers). -/
def exC1Claude : Config :=
  { version := 0,
    hooks := [("before_command", [{ matcher := "Bash", hooks := [exCmdHook] }]),
              ("on_permission", [{ matcher := "", hooks := [exPromptHook] }])],
    disableAllHooks := false, allowManagedHooksOnly := false }

/-- C1 witness input: a cursor-normal (also windsurf-normal) config. -/
def exC1Cursor : Config :=
  { version := 0,
    hooks := [("before_command", [{ matcher := "", hooks := [exCmdHook] }]),
              ("before_mcp", [{ matcher := "", hooks := [exCmdHook, exCmdHook] }])],
    disableAllHooks := false, allowManagedHooksOnly := false }

/-- C3 counterexample input: one hook under an unrecognized Claude event
name. -/
def exC3Claude : ClaudeConfig :=
  { hooks := [("UnknownEvent", [{ matcher := "", hooks := [⟨"command", "echo hi", "", 0⟩] }])],
    disableAllHooks := false, allowManagedHooksOnly := false }

/-- C4/C5 input: a prompt-only hook under a cursor- and windsurf-supported
event. -/
def exPromptOnlyConfig : Config :=
  { version := 0,
    hooks := [("before_command", [{ matcher := "", hooks := [exPromptHook] }])],
    disableAllHooks := false, allowManagedHooksOnly := false }

/-- C6 witness registry: a single adapter named "target". -/
def exRegistry : StrMap HookAdapter :=
  [("target", { name := "target", parse := fun _ => exC1Config, marshal := fun _ => "{}" })]

/-- C8 input: bundle with empty hooks and MCP but a context present. -/
def exC8Bundle : Bundle :=
  { skills := [], commands := [], agents := [], hasContext := true,
    hooks := { version := 0, hooks := [], disableAllHooks := false,
               allowManagedHooksOnly := false },
    mcpServers := [] }

/-- C8 witness input: bundle with empty hooks/MCP and non-empty other
collections. -/
def exC8BundleW : Bundle :=
  { skills := ["sk1"], commands := ["cmd1"], agents := ["ag1"], hasContext := true,
    hooks := { version := 0, hooks := [], disableAllHooks := false,
               allowManagedHooksOnly := false },
    mcpServers := [] }

/-- The claude row of `DefaultToolConfigs`, spelled out for witnesses. -/
def exClaudeToolConfig : ToolConfig :=
  { pluginDir := ".claude-plugin", pluginFile := "plugin.json",
    skillsDir := "skills", commandsDir := "commands",
    hooksDir := "", hooksFile := "", agentsDir := "agents",
    mcpDir := "", mcpFile := "", contextDir := ".", contextFile := "CLAUDE.md" }

/-- C9/C10 witness input: a small config. -/
def exSmallConfig : Config :=
  { version := 3,
    hooks := [("before_command", [{ matcher := "Bash", hooks := [exCmdHook] }])],
    disableAllHooks := true, allowManagedHooksOnly := false }

/-! # Lemmas: StrMap library -/

theorem smGet_set_self {α : Type u} (m : StrMap α) (k : String) (v : α) :
    smGet (smSet m k v) k = some v := by
  induction m with
  | nil => simp [smSet, smGet]
  | cons p rest ih =>
    by_cases h : p.1 = k
    · simp [smSet, h, smGet]
    · simp [smSet, h, smGet, ih]

theorem smGet_set_ne {α : Type u} (m : StrMap α) (k k' : String) (v : α) (h : k' ≠ k) :
    smGet (smSet m k v) k' = smGet m k' := by
  induction m with
  | nil => simp [smSet, smGet, Ne.symm h]
  | cons p rest ih =>
    by_cases hp : p.1 = k
    · simp [smSet, hp, smGet, Ne.symm h, hp ▸ Ne.symm h]
    · simp [smSet, hp, smGet, ih]

theorem smGetD_set_self {α : Type u} (m : StrMap α) (k : String) (v d : α) :
    smGetD (smSet m k v) k d = v := by
  simp [smGetD, smGet_set_self]

theorem smGetD_set_ne {α : Type u} (m : StrMap α) (k k' : String) (v d : α) (h : k' ≠ k) :
    smGetD (smSet m k v) k' d = smGetD m k' d := by
  simp [smGetD, smGet_set_ne _ _ _ _ h]

theorem smGet_eq_none_iff {α : Type u} (m : StrMap α) (k : String) :
    smGet m k = none ↔ k ∉ smKeys m := by
  induction m with
  | nil => simp [smGet, smKeys]
  | cons p rest ih =>
    by_cases h : p.1 = k
    · simp [smGet, h, smKeys]
    · simp [smGet, h, smKeys, ih, Ne.symm h]

theorem smGet_of_mem_nodup {α : Type u} (m : StrMap α) (k : String) (v : α)
    (hn : (smKeys m).Nodup) (hm : (k, v) ∈ m) : smGet m k = some v := by
  induction m with
  | nil => cases hm
  | cons p rest ih =>
    have hn' : p.1 ∉ smKeys rest ∧ (smKeys rest).Nodup := by
      simpa [smKeys] using hn
    rcases List.mem_cons.mp hm with h | h
    · simp [smGet, ← h]
    · have hk : k ∈ smKeys rest := List.mem_map_of_mem (·.1) h
      have hne : p.1 ≠ k := by
        intro heq
        exact hn'.1 (by rw [heq]; exact hk)
      simp [smGet, hne]
      exact ih hn'.2 h

theorem mem_of_smGet {α : Type u} (m : StrMap α) (k : String) (v : α)
    (h : smGet m k = some v) : (k, v) ∈ m := by
  induction m with
  | nil => simp [smGet] at h
  | cons p rest ih =>
    by_cases hp : p.1 = k
    · simp [smGet, hp] at h
      exact List.mem_cons.mpr (Or.inl (by cases p; simp_all))
    · simp [smGet, hp] at h
      exact List.mem_cons.mpr (Or.inr (ih h))

theorem mem_smKeys_set {α : Type u} (m : StrMap α) (k k' : String) (v : α) :
    k' ∈ smKeys (smSet m k v) ↔ k' ∈ smKeys m ∨ k' = k := by
  induction m with
  | nil => simp [smSet, smKeys]
  | cons p rest ih =>
    have h3 : smKeys (p :: rest) = p.1 :: smKeys rest := rfl
    by_cases hp : p.1 = k
    · have h1 : smSet (p :: rest) k v = (k, v) :: rest := by simp [smSet, hp]
      have h2 : smKeys ((k, v) :: rest) = k :: smKeys rest := rfl
      rw [h1, h2, List.mem_cons, h3, List.mem_cons, hp]
      tauto
    · have h1 : smSet (p :: rest) k v = p :: smSet rest k v := by simp [smSet, hp]
      have h2 : smKeys (p :: smSet rest k v) = p.1 :: smKeys (smSet rest k v) := rfl
      rw [h1, h2, List.mem_cons, h3, List.mem_cons, ih]
      tauto

theorem smKeys_set_nodup {α : Type u} (m : StrMap α) (k : String) (v : α)
    (h : (smKeys m).Nodup) : (smKeys (smSet m k v)).Nodup := by
  induction m with
  | nil => simp [smSet, smKeys]
  | cons p rest ih =>
    have h' : p.1 ∉ smKeys rest ∧ (smKeys rest).Nodup := by
      simpa [smKeys] using h
    by_cases hp : p.1 = k
    · have : smSet (p :: rest) k v = (k, v) :: rest := by simp [smSet, hp]
      rw [this]
      simp only [smKeys, List.map_cons, List.nodup_cons]
      exact ⟨by rw [← hp]; exact h'.1, h'.2⟩
    · have : smSet (p :: rest) k v = p :: smSet rest k v := by simp [smSet, hp]
      rw [this]
      simp only [smKeys, List.map_cons, List.nodup_cons]
      refine ⟨?_, ih h'.2⟩
      intro hmem
      rcases (mem_smKeys_set rest k p.1 v).mp hmem with h1 | h1
      · exact h'.1 h1
      · exact hp h1

theorem smGetD_append_self {α : Type u} (m : StrMap (List α)) (k : String) (v : α) :
    smGetD (smAppend m k v) k [] = smGetD m k [] ++ [v] := by
  simp [smAppend, smGetD_set_self]

theorem smGetD_append_ne {α : Type u} (m : StrMap (List α)) (k k' : String) (v : α)
    (h : k' ≠ k) : smGetD (smAppend m k v) k' [] = smGetD m k' [] := by
  simp [smAppend, smGetD_set_ne _ _ _ _ _ h]

theorem smBuild_nil {α : Type u} (init : StrMap (List α)) : smBuild [] init = init := rfl

theorem smBuild_cons {α : Type u} (p : String × α) (ps : List (String × α))
    (init : StrMap (List α)) :
    smBuild (p :: ps) init = smBuild ps (smAppend init p.1 p.2) := rfl

theorem smBuild_append {α : Type u} (a b : List (String × α)) (init : StrMap (List α)) :
    smBuild (a ++ b) init = smBuild b (smBuild a init) := by
  simp [smBuild, List.foldl_append]

theorem smGetD_build {α : Type u} (ps : List (String × α)) (init : StrMap (List α))
    (k : String) :
    smGetD (smBuild ps init) k [] = smGetD init k [] ++ ps.filterMap (keyFM k) := by
  induction ps generalizing init with
  | nil => simp [smBuild]
  | cons p rest ih =>
    rw [smBuild_cons, ih]
    by_cases h : p.1 = k
    · rw [h, smGetD_append_self]
      have : keyFM k p = some p.2 := by simp [keyFM, h]
      simp [List.filterMap_cons, this]
    · rw [smGetD_append_ne _ _ _ _ (Ne.symm h)]
      have : keyFM k p = none := by simp [keyFM, h]
      simp [List.filterMap_cons, this]

theorem smKeys_build_nodup {α : Type u} (ps : List (String × α)) (init : StrMap (List α))
    (h : (smKeys init).Nodup) : (smKeys (smBuild ps init)).Nodup := by
  induction ps generalizing init with
  | nil => exact h
  | cons p rest ih => exact ih _ (smKeys_set_nodup _ _ _ h)

theorem mem_smKeys_build {α : Type u} (ps : List (String × α)) (init : StrMap (List α))
    (k : String) :
    k ∈ smKeys (smBuild ps init) ↔ k ∈ smKeys init ∨ k ∈ ps.map (·.1) := by
  induction ps generalizing init with
  | nil => simp [smBuild]
  | cons p rest ih =>
    rw [smBuild_cons, ih]
    rw [smAppend, mem_smKeys_set]
    simp [or_assoc, or_comm, or_left_comm]

theorem smTotal_append_elt {α : Type u} (m : StrMap (List α)) (k : String) (v : α)
    (w : α → Nat) : smTotal (smAppend m k v) w = smTotal m w + w v := by
  induction m with
  | nil => simp [smAppend, smSet, smGetD, smGet, smTotal]
  | cons p rest ih =>
    by_cases hp : p.1 = k
    · have h1 : smAppend (p :: rest) k v = (k, p.2 ++ [v]) :: rest := by
        simp [smAppend, smSet, smGetD, smGet, hp]
      rw [h1]
      simp only [smTotal, List.map_cons, List.sum_cons, List.map_append, List.sum_append]
      simp
      omega
    · have h1 : smAppend (p :: rest) k v = p :: smAppend rest k v := by
        simp [smAppend, smSet, hp, smGetD, smGet]
      rw [h1]
      simp only [smTotal, List.map_cons, List.sum_cons] at *
      omega

theorem smTotal_build {α : Type u} (ps : List (String × α)) (init : StrMap (List α))
    (w : α → Nat) :
    smTotal (smBuild ps init) w = smTotal init w + (ps.map (fun p => w p.2)).sum := by
  induction ps generalizing init with
  | nil => simp [smBuild]
  | cons p rest ih =>
    rw [smBuild_cons, ih, smTotal_append_elt]
    simp
    omega

theorem smFlat_sum {α : Type u} (m : StrMap (List α)) (w : α → Nat) :
    ((smFlat m).map (fun p => w p.2)).sum = smTotal m w := by
  induction m with
  | nil => simp [smFlat, smTotal]
  | cons p rest ih =>
    simp only [smFlat, List.map_append, List.sum_append, ih, List.map_map,
      smTotal, List.map_cons, List.sum_cons]
    congr 1

theorem filterMap_keyFM_mapped {α : Type u} (vs : List α) (k0 k : String) :
    (vs.map (fun v => (k0, v))).filterMap (keyFM k) = if k0 = k then vs else [] := by
  induction vs with
  | nil => simp
  | cons v rest ih =>
    have hk : keyFM k ((k0, v) : String × α) = if k0 = k then some v else none := rfl
    rw [List.map_cons, List.filterMap_cons, hk, ih]
    by_cases h : k0 = k <;> simp [h]

theorem smFlat_filterMap {α : Type u} (m : StrMap (List α)) (k : String)
    (hn : (smKeys m).Nodup) :
    (smFlat m).filterMap (keyFM k) = smGetD m k [] := by
  induction m with
  | nil => simp [smFlat, smGetD, smGet]
  | cons p rest ih =>
    have hn2 : p.1 ∉ smKeys rest ∧ (smKeys rest).Nodup := by
      simpa [smKeys] using hn
    have hflat : smFlat (p :: rest) = p.2.map (fun v => (p.1, v)) ++ smFlat rest := rfl
    rw [hflat, List.filterMap_append, filterMap_keyFM_mapped, ih hn2.2]
    by_cases h : p.1 = k
    · have hrest : smGet rest k = none :=
        (smGet_eq_none_iff rest k).mpr (by rw [← h]; exact hn2.1)
      have hD : smGetD rest k [] = [] := by simp [smGetD, hrest]
      have hh : smGetD (p :: rest) k [] = p.2 := by simp [smGetD, smGet, h]
      rw [if_pos h, hD, hh, List.append_nil]
    · have hh : smGetD (p :: rest) k [] = smGetD rest k [] := by
        simp [smGetD, smGet, h]
      rw [if_neg h, hh, List.nil_append]

theorem mem_filterMap_keyFM_self {α : Type u} (l : List (String × α)) (p : String × α)
    (h : p ∈ l) : p.2 ∈ l.filterMap (keyFM p.1) := by
  induction l with
  | nil => cases h
  | cons q rest ih =>
    rcases List.mem_cons.mp h with rfl | h
    · simp [List.filterMap_cons, keyFM]
    · by_cases hq : q.1 = p.1
      · simp [List.filterMap_cons, keyFM, hq, ih h]
      · simp [List.filterMap_cons, keyFM, hq, ih h]

theorem mem_of_filterMap_keyFM {α : Type u} (l : List (String × α)) (k : String) (v : α)
    (h : v ∈ l.filterMap (keyFM k)) : (k, v) ∈ l := by
  induction l with
  | nil => simp at h
  | cons q rest ih =>
    by_cases hq : q.1 = k
    · rw [List.filterMap_cons] at h
      simp only [keyFM, hq, if_pos rfl] at h
      rcases List.mem_cons.mp h with rfl | h
      · exact List.mem_cons.mpr (Or.inl (by cases q; simp_all))
      · exact List.mem_cons.mpr (Or.inr (ih h))
    · rw [List.filterMap_cons] at h
      simp only [keyFM, hq, if_neg hq] at h
      exact List.mem_cons.mpr (Or.inr (ih h))

theorem mem_of_smFlat_build {α : Type u} (ps : List (String × α)) (p : String × α)
    (hp : p ∈ smFlat (smBuild ps [])) : p ∈ ps := by
  have h1 : p.2 ∈ (smFlat (smBuild ps [])).filterMap (keyFM p.1) :=
    mem_filterMap_keyFM_self _ _ hp
  rw [smFlat_filterMap _ _ (smKeys_build_nodup ps [] (by simp [smKeys]))] at h1
  rw [smGetD_build] at h1
  simp only [smGetD, smGet, Option.getD_none, List.nil_append] at h1
  have := mem_of_filterMap_keyFM ps p.1 p.2 h1
  exact (by cases p; exact this)

theorem filterMap_key_restrict {α β : Type u} (l : List (String × α))
    (P : String × α → Option β) (k : String)
    (h : ∀ p ∈ l, p.1 ≠ k → P p = none) :
    l.filterMap P = (l.filterMap (keyFM k)).filterMap (fun v => P (k, v)) := by
  induction l with
  | nil => simp
  | cons p rest ih =>
    have hrest : ∀ q ∈ rest, q.1 ≠ k → P q = none := fun q hq => h q (List.mem_cons_of_mem _ hq)
    by_cases hk : p.1 = k
    · obtain ⟨k0, v⟩ := p
      simp only at hk
      subst hk
      rw [List.filterMap_cons, List.filterMap_cons]
      simp only [keyFM, if_pos rfl]
      cases hP : P (k0, v) with
      | none => simp [List.filterMap_cons, hP, ih hrest]
      | some b => simp [List.filterMap_cons, hP, ih hrest]
    · have hnone : P p = none := h p (List.mem_cons_self _ _) hk
      rw [List.filterMap_cons, List.filterMap_cons]
      simp only [keyFM, hk, if_neg hk, hnone]
      exact ih hrest

/-! # Claim C7: CanBlock -/

/-- C7: `CanBlock` equals `IsBeforeEvent` OR-ed with equality to the
permission-request event, and `on_permission` is the unique event for which
`CanBlock` holds while `IsBeforeEvent` does not. -/
theorem c7_canBlock_disjunction :
    (∀ e : Event, canBlock e = (isBeforeEvent e || e = OnPermission)) ∧
    (∀ e : Event, (canBlock e = true ∧ isBeforeEvent e = false) ↔ e = OnPermission) := by
  refine ⟨fun e => rfl, fun e => ?_⟩
  constructor
  · rintro ⟨hc, hb⟩
    unfold canBlock at hc
    rw [hb] at hc
    simpa using hc
  · rintro rfl
    exact ⟨by decide, by decide⟩

/-- C7 witness at the concrete permission event. -/
theorem c7_canBlock_disjunction_witness :
    canBlock "on_permission" = true ∧ isBeforeEvent "on_permission" = false :=
  (c7_canBlock_disjunction.2 "on_permission").mpr rfl

/-! # Claim C2: PreToolUse matcher disambiguation -/

/-- C2: the Claude adapter's native-to-canonical conversion of `PreToolUse`
paired with matcher m yields: `before_command` for "Bash", `before_file_read`
for "Read", `before_file_write` for "Write"/"Edit"/"Write|Edit", and
`before_mcp` for every other matcher string. -/
theorem c2_preToolUse_matcher_disambiguation (m : String) :
    claudeToCanonicalEvent "PreToolUse" m =
      if m = "Bash" then BeforeCommand
      else if m = "Read" then BeforeFileRead
      else if m = "Write" ∨ m = "Edit" ∨ m = "Write|Edit" then BeforeFileWrite
      else BeforeMCP := by
  by_cases h1 : m = "Bash"
  · subst h1; decide
  by_cases h2 : m = "Read"
  · subst h2; decide
  by_cases h3 : m = "Write"
  · subst h3; decide
  by_cases h4 : m = "Edit"
  · subst h4; decide
  by_cases h5 : m = "Write|Edit"
  · subst h5; decide
  have hnone : matcherToCanonicalEventBefore m = none := by
    unfold matcherToCanonicalEventBefore
    simp [h1, h2, h3, h4, h5]
  unfold claudeToCanonicalEvent
  rw [show claudeReverseEventMapping "PreToolUse" = none from rfl, hnone]
  simp [h1, h2, h3, h4, h5]

/-! # Claim C10: FilterByTool with an unrecognized tool name -/

/-- C10: filtering by a tool name outside {claude, cursor, windsurf} yields
an empty hooks map while copying version and the two policy flags. -/
theorem c10_filterByTool_unknown_tool (c : Config) (t : String)
    (h : t ≠ "claude" ∧ t ≠ "cursor" ∧ t ≠ "windsurf") :
    (c.filterByTool t).hooks = [] ∧
    (c.filterByTool t).version = c.version ∧
    (c.filterByTool t).disableAllHooks = c.disableAllHooks ∧
    (c.filterByTool t).allowManagedHooksOnly = c.allowManagedHooksOnly := by
  refine ⟨?_, rfl, rfl, rfl⟩
  show c.hooks.filter _ = []
  rw [List.filter_eq_nil_iff]
  intro p _
  simp [h.1, h.2.1, h.2.2]

/-- C10 witness: the tool name "kiro" at a concrete config. -/
theorem c10_filterByTool_unknown_tool_witness :
    (exSmallConfig.filterByTool "kiro").hooks = [] ∧
    (exSmallConfig.filterByTool "kiro").version = exSmallConfig.version := by
  have h := c10_filterByTool_unknown_tool exSmallConfig "kiro" (by decide)
  exact ⟨h.1, h.2.1⟩

/-! # Claim C9: AddHookWithMatcher -/

theorem addEntryHook_of_not_mem (l : List HookEntry) (m : String) (hk : Hook)
    (h : ∀ en ∈ l, en.matcher ≠ m) :
    addEntryHook l m hk = l ++ [{ matcher := m, hooks := [hk] }] := by
  induction l with
  | nil => rfl
  | cons en rest ih =>
    have hne : en.matcher ≠ m := h en (List.mem_cons_self _ _)
    simp only [addEntryHook, if_neg hne, List.cons_append]
    rw [ih (fun en' h' => h en' (List.mem_cons_of_mem _ h'))]

theorem addEntryHook_of_first (l1 : List HookEntry) (en : HookEntry) (l2 : List HookEntry)
    (m : String) (hk : Hook)
    (h1 : ∀ en' ∈ l1, en'.matcher ≠ m) (h2 : en.matcher = m) :
    addEntryHook (l1 ++ en :: l2) m hk =
      l1 ++ ({ en with hooks := en.hooks ++ [hk] } : HookEntry) :: l2 := by
  induction l1 with
  | nil => simp only [List.nil_append, addEntryHook, if_pos h2]
  | cons en' rest ih =>
    have hne : en'.matcher ≠ m := h1 en' (List.mem_cons_self _ _)
    simp only [List.cons_append, addEntryHook, if_neg hne]
    exact congrArg (en' :: ·) (ih (fun x hx => h1 x (List.mem_cons_of_mem _ hx)))

/-- C9: `AddHookWithMatcher` leaves other events untouched; when no entry for
(event, matcher) exists it appends a fresh `{matcher, [hook]}` entry at the
end; when one exists (first occurrence) it appends the hook to that entry's
hook list, preserving the surrounding entries and their order. -/
theorem c9_addHookWithMatcher_merge (c : Config) (e : Event) (m : String) (hk : Hook) :
    (∀ e', e' ≠ e →
        smGetD (c.addHookWithMatcher e m hk).hooks e' [] = smGetD c.hooks e' []) ∧
    ((∀ en ∈ smGetD c.hooks e [], en.matcher ≠ m) →
        smGetD (c.addHookWithMatcher e m hk).hooks e [] =
          smGetD c.hooks e [] ++ [{ matcher := m, hooks := [hk] }]) ∧
    (∀ l1 en l2, smGetD c.hooks e [] = l1 ++ en :: l2 →
        (∀ en' ∈ l1, en'.matcher ≠ m) → en.matcher = m →
        smGetD (c.addHookWithMatcher e m hk).hooks e [] =
          l1 ++ ({ en with hooks := en.hooks ++ [hk] } : HookEntry) :: l2) := by
  refine ⟨?_, ?_, ?_⟩
  · intro e' hne
    show smGetD (smSet c.hooks e _) e' [] = _
    exact smGetD_set_ne _ _ _ _ _ hne
  · intro h
    show smGetD (smSet c.hooks e _) e [] = _
    rw [smGetD_set_self, addEntryHook_of_not_mem _ _ _ h]
  · intro l1 en l2 hsplit h1 h2
    show smGetD (smSet c.hooks e _) e [] = _
    rw [smGetD_set_self, hsplit, addEntryHook_of_first _ _ _ _ _ h1 h2]

/-- C9 witness: merging into an existing (event, matcher) entry at a concrete
config. -/
theorem c9_addHookWithMatcher_merge_witness :
    smGetD (exSmallConfig.addHookWithMatcher "before_command" "Bash" exCmdHook).hooks
        "before_command" [] =
      [{ matcher := "Bash", hooks := [exCmdHook, exCmdHook] }] := by
  have h := (c9_addHookWithMatcher_merge exSmallConfig "before_command" "Bash" exCmdHook).2.2
    [] { matcher := "Bash", hooks := [exCmdHook] } [] (by decide) (by decide) (by decide)
  simpa using h

/-! # Claim C4: prompt-only configs degrade to zero hooks -/

theorem foldl_skip_empty_command {τ : Type} (f : Hook → τ) (k : String)
    (hooks : List Hook) (acc : StrMap (List τ))
    (h : ∀ x ∈ hooks, x.command = "") :
    hooks.foldl (fun acc x => if x.command ≠ "" then smAppend acc k (f x) else acc) acc
      = acc := by
  induction hooks generalizing acc with
  | nil => rfl
  | cons x rest ih =>
    have hx : x.command = "" := h x (List.mem_cons_self _ _)
    simp only [List.foldl_cons, hx]
    rw [if_neg (by simp)]
    exact ih _ (fun y hy => h y (List.mem_cons_of_mem _ hy))

theorem entries_foldl_skip_empty {τ : Type} (f : Hook → τ) (k : String)
    (ens : List HookEntry) (acc : StrMap (List τ))
    (h : ∀ en ∈ ens, ∀ x ∈ en.hooks, x.command = "") :
    ens.foldl (fun acc entry =>
      entry.hooks.foldl (fun acc x =>
        if x.command ≠ "" then smAppend acc k (f x) else acc) acc) acc = acc := by
  induction ens generalizing acc with
  | nil => rfl
  | cons en rest ih =>
    simp only [List.foldl_cons]
    rw [foldl_skip_empty_command f k en.hooks acc (h en (List.mem_cons_self _ _))]
    exact ih _ (fun en' h' => h en' (List.mem_cons_of_mem _ h'))

theorem simpleFromCore_hooks_acc {τ : Type} (emap : Event → Option String)
    (f : Hook → τ) (l : StrMap (List HookEntry)) :
    (∀ p ∈ l, ∀ en ∈ p.2, ∀ x ∈ en.hooks, x.command = "") →
    ∀ acc : StrMap (List τ),
    l.foldl (fun acc p =>
      match emap p.1 with
      | none => acc
      | some k => p.2.foldl (fun acc entry =>
          entry.hooks.foldl (fun acc x =>
            if x.command ≠ "" then smAppend acc k (f x) else acc) acc) acc) acc = acc := by
  induction l with
  | nil => intro _ acc; rfl
  | cons p rest ih =>
    intro h acc
    simp only [List.foldl_cons]
    have hstep : (match emap p.1 with
      | none => acc
      | some k => p.2.foldl (fun acc entry =>
          entry.hooks.foldl (fun acc x =>
            if x.command ≠ "" then smAppend acc k (f x) else acc) acc) acc) = acc := by
      cases emap p.1 with
      | none => rfl
      | some k => exact entries_foldl_skip_empty f k p.2 acc (h p (List.mem_cons_self _ _))
    rw [hstep]
    exact ih (fun q hq => h q (List.mem_cons_of_mem _ hq)) acc

/-- C4: converting a canonical config whose hooks are all prompt-type
(prompt set, command empty) to cursor or windsurf succeeds (FromCore is
total; the Go signature has no error channel) and produces a native config
with zero hooks. -/
theorem c4_prompt_only_yields_zero_hooks (c : Config)
    (h : ∀ p ∈ c.hooks, ∀ en ∈ p.2, ∀ hk ∈ en.hooks,
      hk.type = "prompt" ∧ hk.prompt ≠ "" ∧ hk.command = "") :
    (cursorFromCore c).hooks = [] ∧ cursorNativeCount (cursorFromCore c) = 0 ∧
    (windsurfFromCore c).hooks = [] ∧ windsurfNativeCount (windsurfFromCore c) = 0 := by
  have hc : ∀ p ∈ c.hooks, ∀ en ∈ p.2, ∀ x ∈ en.hooks, x.command = "" :=
    fun p hp en he x hx => (h p hp en he x hx).2.2
  have hcur : (cursorFromCore c).hooks = [] :=
    simpleFromCore_hooks_acc cursorEventMapping
      (fun x => ({ command := x.command } : CursorHook)) c.hooks hc []
  have hwin : (windsurfFromCore c).hooks = [] :=
    simpleFromCore_hooks_acc windsurfEventMapping
      (fun x => ({ command := x.command, showOutput := x.showOutput,
                   workingDirectory := x.workingDir } : WindsurfHook)) c.hooks hc []
  refine ⟨hcur, ?_, hwin, ?_⟩
  · simp [cursorNativeCount, hcur, smTotal]
  · simp [windsurfNativeCount, hwin, smTotal]

/-- C4 witness: a concrete prompt-only config. -/
theorem c4_prompt_only_yields_zero_hooks_witness :
    (cursorFromCore exPromptOnlyConfig).hooks = [] ∧
    (windsurfFromCore exPromptOnlyConfig).hooks = [] := by
  have h := c4_prompt_only_yields_zero_hooks exPromptOnlyConfig (by decide)
  exact ⟨h.1, h.2.2.1⟩

/-! # Claim C6: Registry.Convert (spec-modelled) -/

/-- C6: with an unregistered source name, Convert errors with a
ConversionError carrying (from, to) and naming the source side; with a
registered source but unregistered target, it names the target side; with
both registered, it returns exactly Marshal-after-Parse. -/
theorem c6_registryConvert_spec (reg : StrMap HookAdapter) (data fromN toN : String) :
    (smGet reg fromN = none →
        registryConvert reg data fromN toN =
          .error { fromName := fromN, toName := toN, event := "",
                   err := "unknown source adapter" }) ∧
    (∀ fa, smGet reg fromN = some fa → smGet reg toN = none →
        registryConvert reg data fromN toN =
          .error { fromName := fromN, toName := toN, event := "",
                   err := "unknown target adapter" }) ∧
    (∀ fa ta, smGet reg fromN = some fa → smGet reg toN = some ta →
        registryConvert reg data fromN toN = .ok (ta.marshal (fa.parse data))) := by
  refine ⟨?_, ?_, ?_⟩ <;> intros <;> simp_all [registryConvert]

/-- C6 witness: unknown source against a concrete one-adapter registry. -/
theorem c6_registryConvert_spec_witness :
    registryConvert exRegistry "{}" "missing" "target" =
      .error { fromName := "missing", toName := "target", event := "",
               err := "unknown source adapter" } :=
  (c6_registryConvert_spec exRegistry "{}" "missing" "target").1 rfl

/-! # Claim C8: bundle generation with empty hooks and MCP -/

/-- C8 counterexample: cursor is a supported tool with a configured context
file (.cursorrules), yet a bundle whose only content is a context produces
no files at all for cursor — no context converter is registered for it, so
the non-empty Context collection is not written to its configured path. -/
theorem c8_counterexample_cursor_context :
    "cursor" ∈ supportedTools ∧
    exC8Bundle.hasContext = true ∧
    (defaultToolConfigs "cursor").map (fun cfg => cfg.contextFile) = some ".cursorrules" ∧
    exC8Bundle.generatedFiles "cursor" "out" = [] := by
  refine ⟨by decide, rfl, rfl, rfl⟩

/-- C8 (amended): with an empty hooks config and no MCP servers, Generate
writes no hooks file and no MCP file for any supported tool; non-empty
Skills/Commands/Agents/Context collections are still written to their
configured paths whenever the tool also has a registered adapter (resp.
converter) for that artifact kind. -/
theorem c8_empty_hooks_mcp_generation (b : Bundle) (tool outputDir : String)
    (_hsup : tool ∈ supportedTools)
    (hh : b.hooks.hooks = []) (hm : b.mcpServers = []) :
    ∀ cfg, defaultToolConfigs tool = some cfg →
      generateHooksFiles b tool outputDir cfg = [] ∧
      generateMCPFiles b tool outputDir cfg = [] ∧
      b.generatedFiles tool outputDir =
        generatePluginFiles tool outputDir cfg ++ generateSkillsFiles b tool outputDir cfg ++
        generateCommandsFiles b tool outputDir cfg ++ generateAgentsFiles b tool outputDir cfg ++
        generateContextFiles b tool outputDir cfg ∧
      (b.skills ≠ [] → cfg.skillsDir ≠ "" → skillsAdapters.contains tool = true →
        ∀ s ∈ b.skills,
          ("skill:" ++ s, pathJoin (pathJoin outputDir cfg.skillsDir) s) ∈
            b.generatedFiles tool outputDir) ∧
      (b.commands ≠ [] → cfg.commandsDir ≠ "" → commandsAdapters.contains tool = true →
        ∀ cn ∈ b.commands,
          ("command:" ++ cn, pathJoin (pathJoin outputDir cfg.commandsDir) cn) ∈
            b.generatedFiles tool outputDir) ∧
      (b.agents ≠ [] → cfg.agentsDir ≠ "" → agentsAdapters.contains tool = true →
        ∀ a ∈ b.agents,
          ("agent:" ++ a, pathJoin (pathJoin outputDir cfg.agentsDir) a) ∈
            b.generatedFiles tool outputDir) ∧
      (b.hasContext = true → cfg.contextFile ≠ "" → contextConverters.contains tool = true →
        ("context", pathJoin (pathJoin outputDir cfg.contextDir) cfg.contextFile) ∈
          b.generatedFiles tool outputDir) := by
  intro cfg hcfg
  have hhooks : generateHooksFiles b tool outputDir cfg = [] := by
    have : b.hooks.hasHooks = false := by simp [Config.hasHooks, hh]
    simp [generateHooksFiles, this]
  have hmcp : generateMCPFiles b tool outputDir cfg = [] := by
    simp [generateMCPFiles, hm]
  have hfiles : b.generatedFiles tool outputDir =
      generatePluginFiles tool outputDir cfg ++ generateSkillsFiles b tool outputDir cfg ++
      generateCommandsFiles b tool outputDir cfg ++ generateAgentsFiles b tool outputDir cfg ++
      generateContextFiles b tool outputDir cfg := by
    unfold Bundle.generatedFiles
    rw [hcfg]
    simp only [hhooks, hmcp, List.append_nil, List.nil_append]
  refine ⟨hhooks, hmcp, hfiles, ?_, ?_, ?_, ?_⟩
  · intro h1 h2 h3 s hs
    have hmem : ("skill:" ++ s, pathJoin (pathJoin outputDir cfg.skillsDir) s) ∈
        generateSkillsFiles b tool outputDir cfg := by
      have hcond : ¬(b.skills = [] ∨ cfg.skillsDir = "") := by simp [h1, h2]
      simp only [generateSkillsFiles, if_neg hcond, h3, if_true]
      exact List.mem_map_of_mem _ hs
    rw [hfiles]
    simp only [List.mem_append]
    exact Or.inl (Or.inl (Or.inl (Or.inr hmem)))
  · intro h1 h2 h3 cn hc
    have hmem : ("command:" ++ cn, pathJoin (pathJoin outputDir cfg.commandsDir) cn) ∈
        generateCommandsFiles b tool outputDir cfg := by
      have hcond : ¬(b.commands = [] ∨ cfg.commandsDir = "") := by simp [h1, h2]
      simp only [generateCommandsFiles, if_neg hcond, h3, if_true]
      exact List.mem_map_of_mem _ hc
    rw [hfiles]
    simp only [List.mem_append]
    exact Or.inl (Or.inl (Or.inr hmem))
  · intro h1 h2 h3 a ha
    have hmem : ("agent:" ++ a, pathJoin (pathJoin outputDir cfg.agentsDir) a) ∈
        generateAgentsFiles b tool outputDir cfg := by
      have hcond : ¬(b.agents = [] ∨ cfg.agentsDir = "") := by simp [h1, h2]
      simp only [generateAgentsFiles, if_neg hcond, h3, if_true]
      exact List.mem_map_of_mem _ ha
    rw [hfiles]
    simp only [List.mem_append]
    exact Or.inl (Or.inr hmem)
  · intro h1 h2 h3
    have hmem : ("context", pathJoin (pathJoin outputDir cfg.contextDir) cfg.contextFile) ∈
        generateContextFiles b tool outputDir cfg := by
      have hcond : ¬(b.hasContext = false ∨ cfg.contextFile = "") := by simp [h1, h2]
      simp only [generateContextFiles, if_neg hcond, h3, if_true]
      exact List.mem_cons_self _ _
    rw [hfiles]
    simp only [List.mem_append]
    exact Or.inr hmem

/-- C8 witness: claude with a bundle holding one skill, one command, one
agent, and a context, but empty hooks and MCP. -/
theorem c8_empty_hooks_mcp_generation_witness :
    generateHooksFiles exC8BundleW "claude" "out" exClaudeToolConfig = [] ∧
    generateMCPFiles exC8BundleW "claude" "out" exClaudeToolConfig = [] ∧
    ("context", pathJoin (pathJoin "out" ".") "CLAUDE.md") ∈
      exC8BundleW.generatedFiles "claude" "out" ∧
    ("skill:sk1", pathJoin (pathJoin "out" "skills") "sk1") ∈
      exC8BundleW.generatedFiles "claude" "out" := by
  have h := c8_empty_hooks_mcp_generation exC8BundleW "claude" "out" (by decide) rfl rfl
    exClaudeToolConfig (by decide)
  refine ⟨h.1, h.2.1, ?_, ?_⟩
  · exact h.2.2.2.2.2.2 rfl (by decide) (by decide)
  · exact h.2.2.2.1 (by decide) (by decide) (by decide) "sk1" (by decide)


/-! # Fold characterizations: each adapter conversion is an `smBuild` over
its flattened pair list -/

theorem claude_to_inner_foldl (k1 : String) (ens : List ClaudeHookEntry)
    (acc : StrMap (List HookEntry)) :
    ens.foldl (fun acc entry =>
      smAppend acc (claudeToCanonicalEvent k1 entry.matcher)
        { matcher := entry.matcher, hooks := entry.hooks.map claudeHookToCore }) acc
    = smBuild (ens.map (fun en => (claudeToCanonicalEvent k1 en.matcher,
        ({ matcher := en.matcher, hooks := en.hooks.map claudeHookToCore } : HookEntry)))) acc := by
  induction ens generalizing acc with
  | nil => rfl
  | cons en rest ih =>
    rw [List.foldl_cons, List.map_cons, smBuild_cons]
    exact ih _

theorem claudeToCore_foldl (l : StrMap (List ClaudeHookEntry)) (acc : StrMap (List HookEntry)) :
    l.foldl (fun acc p =>
      p.2.foldl (fun acc entry =>
        smAppend acc (claudeToCanonicalEvent p.1 entry.matcher)
          { matcher := entry.matcher, hooks := entry.hooks.map claudeHookToCore }) acc) acc
    = smBuild (claudeToPairs l) acc := by
  induction l generalizing acc with
  | nil => rfl
  | cons p rest ih =>
    rw [List.foldl_cons, claude_to_inner_foldl,
      show claudeToPairs (p :: rest) = _ ++ claudeToPairs rest from rfl, smBuild_append]
    exact ih _

theorem claudeToCore_hooks (cc : ClaudeConfig) :
    (claudeToCore cc).hooks = smBuild (claudeToPairs cc.hooks) [] :=
  claudeToCore_foldl cc.hooks []

theorem claude_from_inner_foldl (e0 : Event) (ens : List HookEntry)
    (acc : StrMap (List ClaudeHookEntry)) :
    ens.foldl (fun acc entry =>
      smAppend acc (canonicalToClaudeEvent e0).1
        { matcher := if entry.matcher = "" then (canonicalToClaudeEvent e0).2
                     else entry.matcher,
          hooks := entry.hooks.map claudeHookFromCore }) acc
    = smBuild (ens.map (fun en => ((canonicalToClaudeEvent e0).1,
        ({ matcher := if en.matcher = "" then (canonicalToClaudeEvent e0).2 else en.matcher,
           hooks := en.hooks.map claudeHookFromCore } : ClaudeHookEntry)))) acc := by
  induction ens generalizing acc with
  | nil => rfl
  | cons en rest ih =>
    rw [List.foldl_cons, List.map_cons, smBuild_cons]
    exact ih _

theorem claudeFromCore_foldl (l : StrMap (List HookEntry))
    (acc : StrMap (List ClaudeHookEntry)) :
    l.foldl (fun acc p =>
      if (canonicalToClaudeEvent p.1).1 = "" then acc
      else p.2.foldl (fun acc entry =>
        smAppend acc (canonicalToClaudeEvent p.1).1
          { matcher := if entry.matcher = "" then (canonicalToClaudeEvent p.1).2
                       else entry.matcher,
            hooks := entry.hooks.map claudeHookFromCore }) acc) acc
    = smBuild (claudeFromPairs l) acc := by
  induction l generalizing acc with
  | nil => rfl
  | cons p rest ih =>
    rw [List.foldl_cons,
      show claudeFromPairs (p :: rest) = _ ++ claudeFromPairs rest from rfl, smBuild_append]
    by_cases hc : (canonicalToClaudeEvent p.1).1 = ""
    · rw [if_pos hc, if_pos hc, smBuild_nil]
      exact ih _
    · rw [if_neg hc, if_neg hc, claude_from_inner_foldl]
      exact ih _

theorem claudeFromCore_hooks (cfg : Config) :
    (claudeFromCore cfg).hooks = smBuild (claudeFromPairs cfg.hooks) [] :=
  claudeFromCore_foldl cfg.hooks []

theorem hooks_foldl_filterMap {τ : Type} (f : Hook → τ) (k : String)
    (hooks : List Hook) (acc : StrMap (List τ)) :
    hooks.foldl (fun acc h => if h.command ≠ "" then smAppend acc k (f h) else acc) acc
      = smBuild (hooks.filterMap
          (fun h => if h.command ≠ "" then some (k, f h) else none)) acc := by
  induction hooks generalizing acc with
  | nil => rfl
  | cons h rest ih =>
    rw [List.foldl_cons, List.filterMap_cons]
    by_cases hc : h.command ≠ ""
    · simp only [if_pos hc]
      rw [smBuild_cons]
      exact ih _
    · simp only [if_neg hc]
      exact ih _

theorem entries_foldl_filterMap {τ : Type} (f : Hook → τ) (k : String)
    (ens : List HookEntry) (acc : StrMap (List τ)) :
    ens.foldl (fun acc entry =>
      entry.hooks.foldl (fun acc h =>
        if h.command ≠ "" then smAppend acc k (f h) else acc) acc) acc
    = smBuild (entryHooksPairs k f ens) acc := by
  induction ens generalizing acc with
  | nil => rfl
  | cons en rest ih =>
    rw [List.foldl_cons, hooks_foldl_filterMap,
      show entryHooksPairs k f (en :: rest) = _ ++ entryHooksPairs k f rest from rfl,
      smBuild_append]
    exact ih _

theorem simpleFromPairs_cons_none {τ : Type} (emap : Event → Option String) (f : Hook → τ)
    (p : String × List HookEntry) (rest : StrMap (List HookEntry)) (hk : emap p.1 = none) :
    simpleFromPairs emap f (p :: rest) = simpleFromPairs emap f rest := by
  show (match emap p.1 with
        | none => []
        | some k => entryHooksPairs k f p.2) ++ simpleFromPairs emap f rest = _
  rw [hk]
  rfl

theorem simpleFromPairs_cons_some {τ : Type} (emap : Event → Option String) (f : Hook → τ)
    (p : String × List HookEntry) (rest : StrMap (List HookEntry)) (k : String)
    (hk : emap p.1 = some k) :
    simpleFromPairs emap f (p :: rest) =
      entryHooksPairs k f p.2 ++ simpleFromPairs emap f rest := by
  show (match emap p.1 with
        | none => []
        | some k => entryHooksPairs k f p.2) ++ simpleFromPairs emap f rest = _
  rw [hk]

theorem simpleFromCore_foldl {τ : Type} (emap : Event → Option String) (f : Hook → τ)
    (l : StrMap (List HookEntry)) (acc : StrMap (List τ)) :
    l.foldl (fun acc p =>
      match emap p.1 with
      | none => acc
      | some k => p.2.foldl (fun acc entry =>
          entry.hooks.foldl (fun acc h =>
            if h.command ≠ "" then smAppend acc k (f h) else acc) acc) acc) acc
    = smBuild (simpleFromPairs emap f l) acc := by
  induction l generalizing acc with
  | nil => rfl
  | cons p rest ih =>
    rw [List.foldl_cons]
    cases hk : emap p.1 with
    | none =>
      rw [simpleFromPairs_cons_none emap f p rest hk]
      exact ih _
    | some k =>
      rw [simpleFromPairs_cons_some emap f p rest k hk, smBuild_append,
        ← entries_foldl_filterMap f k p.2 acc]
      exact ih _

theorem cursorFromCore_hooks (cfg : Config) :
    (cursorFromCore cfg).hooks =
      smBuild (simpleFromPairs cursorEventMapping
        (fun h => ({ command := h.command } : CursorHook)) cfg.hooks) [] :=
  simpleFromCore_foldl _ _ cfg.hooks []

theorem windsurfFromCore_hooks (cfg : Config) :
    (windsurfFromCore cfg).hooks =
      smBuild (simpleFromPairs windsurfEventMapping
        (fun h => ({ command := h.command, showOutput := h.showOutput,
                     workingDirectory := h.workingDir } : WindsurfHook)) cfg.hooks) [] :=
  simpleFromCore_foldl _ _ cfg.hooks []

theorem simpleToPairs_cons_none {τ : Type} (rmap : String → Option Event) (g : τ → Hook)
    (p : String × List τ) (rest : StrMap (List τ)) (hk : rmap p.1 = none) :
    simpleToPairs rmap g (p :: rest) = simpleToPairs rmap g rest := by
  show (match rmap p.1 with
        | none => []
        | some e => [(e, ({ matcher := "", hooks := p.2.map g } : HookEntry))]) ++
      simpleToPairs rmap g rest = _
  rw [hk]
  rfl

theorem simpleToPairs_cons_some {τ : Type} (rmap : String → Option Event) (g : τ → Hook)
    (p : String × List τ) (rest : StrMap (List τ)) (e : Event) (hk : rmap p.1 = some e) :
    simpleToPairs rmap g (p :: rest) =
      (e, ({ matcher := "", hooks := p.2.map g } : HookEntry)) :: simpleToPairs rmap g rest := by
  show (match rmap p.1 with
        | none => []
        | some e => [(e, ({ matcher := "", hooks := p.2.map g } : HookEntry))]) ++
      simpleToPairs rmap g rest = _
  rw [hk]
  rfl

theorem simpleToCore_foldl {τ : Type} (rmap : String → Option Event) (g : τ → Hook)
    (l : StrMap (List τ)) (acc : StrMap (List HookEntry)) :
    l.foldl (fun acc p =>
      match rmap p.1 with
      | none => acc
      | some e => smAppend acc e { matcher := "", hooks := p.2.map g }) acc
    = smBuild (simpleToPairs rmap g l) acc := by
  induction l generalizing acc with
  | nil => rfl
  | cons p rest ih =>
    rw [List.foldl_cons]
    cases hk : rmap p.1 with
    | none =>
      rw [simpleToPairs_cons_none rmap g p rest hk]
      exact ih _
    | some e =>
      rw [simpleToPairs_cons_some rmap g p rest e hk, smBuild_cons]
      exact ih _

theorem cursorToCore_hooks (cc : CursorConfig) :
    (cursorToCore cc).hooks =
      smBuild (simpleToPairs cursorReverseEventMapping cursorHookToCore cc.hooks) [] :=
  simpleToCore_foldl _ _ cc.hooks []

theorem windsurfToCore_hooks (wc : WindsurfConfig) :
    (windsurfToCore wc).hooks =
      smBuild (simpleToPairs windsurfReverseEventMapping windsurfHookToCore wc.hooks) [] :=
  simpleToCore_foldl _ _ wc.hooks []

/-! # Claim C3: Parse hook counts -/

theorem sum_map_one {β : Type} (l : List β) : (l.map (fun _ => (1 : Nat))).sum = l.length := by
  induction l with
  | nil => rfl
  | cons x rest ih => simp [ih, Nat.add_comm]

theorem hookCount_eq_smTotal (c : Config) :
    c.hookCount = smTotal c.hooks (fun en => en.hooks.length) := rfl

theorem claudeToPairs_weight (l : StrMap (List ClaudeHookEntry)) :
    ((claudeToPairs l).map (fun p => p.2.hooks.length)).sum
      = smTotal l (fun en => en.hooks.length) := by
  induction l with
  | nil => rfl
  | cons p rest ih =>
    rw [show claudeToPairs (p :: rest) = _ ++ claudeToPairs rest from rfl,
      List.map_append, List.sum_append, ih]
    simp only [smTotal, List.map_cons, List.sum_cons, List.map_map]
    congr 1
    apply congrArg
    apply List.map_congr_left
    intro en _
    simp

theorem simpleToPairs_weight {τ : Type} (rmap : String → Option Event) (g : τ → Hook)
    (l : StrMap (List τ)) :
    ((simpleToPairs rmap g l).map (fun p => p.2.hooks.length)).sum
      = ((l.filter (fun p => (rmap p.1).isSome)).map (fun p => p.2.length)).sum := by
  induction l with
  | nil => rfl
  | cons p rest ih =>
    rw [show simpleToPairs rmap g (p :: rest) = _ ++ simpleToPairs rmap g rest from rfl,
      List.map_append, List.sum_append, ih]
    cases hk : rmap p.1 with
    | none => simp [List.filter_cons, hk]
    | some e => simp [List.filter_cons, hk]

/-- C3 counterexample: a Claude payload whose single hook sits under the
unrecognized native event name "UnknownEvent" has zero hooks under
recognized event names, yet Parse yields HookCount 1 (the hook is retained
under the empty canonical event). -/
theorem c3_counterexample_claude_unknown_event :
    claudeRecognizedCount exC3Claude = 0 ∧
    (claudeToCore exC3Claude).hookCount = 1 := by
  exact ⟨rfl, rfl⟩

/-- C3 (amended): cursor and windsurf count exactly the hooks under
recognized native event names; claude counts every hook in the payload,
recognized native event or not (unrecognized ones land under the empty
canonical event rather than being excluded). -/
theorem c3_parse_hook_counts :
    (∀ cc : ClaudeConfig, (claudeToCore cc).hookCount = claudeNativeCount cc) ∧
    (∀ uc : CursorConfig, (cursorToCore uc).hookCount = cursorRecognizedCount uc) ∧
    (∀ wc : WindsurfConfig, (windsurfToCore wc).hookCount = windsurfRecognizedCount wc) := by
  refine ⟨?_, ?_, ?_⟩
  · intro cc
    show smTotal (claudeToCore cc).hooks (fun en => en.hooks.length) = _
    rw [claudeToCore_hooks, smTotal_build, claudeToPairs_weight]
    show 0 + _ = _
    rw [Nat.zero_add]
    rfl
  · intro uc
    show smTotal (cursorToCore uc).hooks (fun en => en.hooks.length) = _
    rw [cursorToCore_hooks, smTotal_build, simpleToPairs_weight]
    show 0 + _ = _
    rw [Nat.zero_add]
    rfl
  · intro wc
    show smTotal (windsurfToCore wc).hooks (fun en => en.hooks.length) = _
    rw [windsurfToCore_hooks, smTotal_build, simpleToPairs_weight]
    show 0 + _ = _
    rw [Nat.zero_add]
    rfl

/-! # Claim C5: silent dropping of unsupported events -/

theorem foldl_filter_of_skip {β γ : Type} (l : List β) (step : γ → β → γ) (pred : β → Bool)
    (h : ∀ x, pred x = false → ∀ acc, step acc x = acc) (acc : γ) :
    l.foldl step acc = (l.filter pred).foldl step acc := by
  induction l generalizing acc with
  | nil => rfl
  | cons x rest ih =>
    rw [List.foldl_cons, List.filter_cons]
    cases hp : pred x with
    | false =>
      rw [h x hp acc]
      simp only [Bool.false_eq_true, if_false]
      exact ih acc
    | true =>
      simp only [if_true]
      rw [List.foldl_cons]
      exact ih _

theorem claudeFromCore_restrict (cfg : Config) :
    claudeFromCore cfg = claudeFromCore (cfg.restrictEvents claudeMapped) := by
  have hstep : ∀ (p : String × List HookEntry), claudeMapped p.1 = false →
      ∀ acc : StrMap (List ClaudeHookEntry),
      (if (canonicalToClaudeEvent p.1).1 = "" then acc
       else p.2.foldl (fun acc entry =>
         smAppend acc (canonicalToClaudeEvent p.1).1
           { matcher := if entry.matcher = "" then (canonicalToClaudeEvent p.1).2
                        else entry.matcher,
             hooks := entry.hooks.map claudeHookFromCore }) acc) = acc := by
    intro p hp acc
    have hc : (canonicalToClaudeEvent p.1).1 = "" := by
      simpa [claudeMapped] using hp
    rw [if_pos hc]
  show ClaudeConfig.mk _ _ _ = ClaudeConfig.mk _ _ _
  congr 1
  exact foldl_filter_of_skip cfg.hooks _ (fun p => claudeMapped p.1) hstep []

theorem cursorFromCore_restrict (cfg : Config) :
    cursorFromCore cfg = cursorFromCore (cfg.restrictEvents cursorMapped) := by
  have hstep : ∀ (p : String × List HookEntry), cursorMapped p.1 = false →
      ∀ acc : StrMap (List CursorHook),
      (match cursorEventMapping p.1 with
       | none => acc
       | some k => p.2.foldl (fun acc entry =>
           entry.hooks.foldl (fun acc h =>
             if h.command ≠ "" then smAppend acc k { command := h.command } else acc) acc) acc)
        = acc := by
    intro p hp acc
    have hc : cursorEventMapping p.1 = none := by
      cases hcm : cursorEventMapping p.1 with
      | none => rfl
      | some k => simp [cursorMapped, hcm] at hp
    rw [hc]
  show CursorConfig.mk _ _ = CursorConfig.mk _ _
  congr 1
  exact foldl_filter_of_skip cfg.hooks _ (fun p => cursorMapped p.1) hstep []

theorem windsurfFromCore_restrict (cfg : Config) :
    windsurfFromCore cfg = windsurfFromCore (cfg.restrictEvents windsurfMapped) := by
  have hstep : ∀ (p : String × List HookEntry), windsurfMapped p.1 = false →
      ∀ acc : StrMap (List WindsurfHook),
      (match windsurfEventMapping p.1 with
       | none => acc
       | some k => p.2.foldl (fun acc entry =>
           entry.hooks.foldl (fun acc h =>
             if h.command ≠ "" then
               smAppend acc k
                 { command := h.command, showOutput := h.showOutput,
                   workingDirectory := h.workingDir }
             else acc) acc) acc) = acc := by
    intro p hp acc
    have hc : windsurfEventMapping p.1 = none := by
      cases hcm : windsurfEventMapping p.1 with
      | none => rfl
      | some k => simp [windsurfMapped, hcm] at hp
    rw [hc]
  show WindsurfConfig.mk _ = WindsurfConfig.mk _
  congr 1
  exact foldl_filter_of_skip cfg.hooks _ (fun p => windsurfMapped p.1) hstep []

theorem filterMap_indicator_length {τ : Type} (f : Hook → τ) (k : String)
    (hooks : List Hook) :
    (hooks.filterMap (fun h => if h.command ≠ "" then some (k, f h) else none)).length
      = (hooks.map (fun h => if h.command ≠ "" then 1 else 0)).sum := by
  induction hooks with
  | nil => rfl
  | cons h rest ih =>
    rw [List.filterMap_cons, List.map_cons, List.sum_cons]
    by_cases hc : h.command ≠ ""
    · simp only [if_pos hc, List.length_cons, ih]
      omega
    · simp only [if_neg hc, ih]
      omega

theorem entryHooksPairs_length {τ : Type} (k : String) (f : Hook → τ)
    (ens : List HookEntry) :
    (entryHooksPairs k f ens).length
      = (ens.map (fun en =>
          (en.hooks.map (fun h => if h.command ≠ "" then 1 else 0)).sum)).sum := by
  induction ens with
  | nil => rfl
  | cons en rest ih =>
    rw [show entryHooksPairs k f (en :: rest) = _ ++ entryHooksPairs k f rest from rfl,
      List.length_append, filterMap_indicator_length f k en.hooks, ih,
      List.map_cons, List.sum_cons]

theorem simpleFromPairs_length {τ : Type} (emap : Event → Option String) (f : Hook → τ)
    (l : StrMap (List HookEntry)) :
    (simpleFromPairs emap f l).length
      = ((l.filter (fun p => (emap p.1).isSome)).map
          (fun p => (p.2.map (fun en =>
            (en.hooks.map (fun h => if h.command ≠ "" then 1 else 0)).sum)).sum)).sum := by
  induction l with
  | nil => rfl
  | cons p rest ih =>
    cases hk : emap p.1 with
    | none =>
      rw [simpleFromPairs_cons_none emap f p rest hk, ih, List.filter_cons]
      simp [hk]
    | some k =>
      rw [simpleFromPairs_cons_some emap f p rest k hk, List.length_append,
        entryHooksPairs_length, ih, List.filter_cons]
      simp [hk]

theorem claudeFromPairs_weight (l : StrMap (List HookEntry)) :
    ((claudeFromPairs l).map (fun p => p.2.hooks.length)).sum
      = ((l.filter (fun p => claudeMapped p.1)).map
          (fun p => (p.2.map (fun en => en.hooks.length)).sum)).sum := by
  induction l with
  | nil => rfl
  | cons p rest ih =>
    rw [show claudeFromPairs (p :: rest) = _ ++ claudeFromPairs rest from rfl,
      List.map_append, List.sum_append, ih, List.filter_cons]
    by_cases hc : (canonicalToClaudeEvent p.1).1 = ""
    · have hm : claudeMapped p.1 = false := by simp [claudeMapped, hc]
      rw [if_pos hc]
      simp [hm]
    · have hm : claudeMapped p.1 = true := by simp [claudeMapped, hc]
      rw [if_neg hc]
      simp only [hm, if_true, List.map_cons, List.sum_cons, List.map_map]
      congr 1
      apply congrArg
      apply List.map_congr_left
      intro en _
      simp

theorem countHooksUnder_one (c : Config) (pred : Event → Bool) :
    c.countHooksUnder pred (fun _ => 1)
      = ((c.hooks.filter (fun p => pred p.1)).map
          (fun p => (p.2.map (fun en => en.hooks.length)).sum)).sum := by
  unfold Config.countHooksUnder
  apply congrArg
  apply List.map_congr_left
  intro p _
  apply congrArg
  apply List.map_congr_left
  intro en _
  exact sum_map_one en.hooks

/-- C5 counterexample: `before_command` is in cursor's eventMapping, its
entry is present in the canonical config, yet the cursor-native output is
empty — the entry under a supported event is not emitted, because its only
hook is prompt-type.  So "all entries under supported events are still
emitted" fails as stated. -/
theorem c5_counterexample_prompt_entry_not_emitted :
    cursorMapped "before_command" = true ∧
    smGetD exPromptOnlyConfig.hooks "before_command" [] =
      [{ matcher := "", hooks := [exPromptHook] }] ∧
    (cursorFromCore exPromptOnlyConfig).hooks = [] := by
  exact ⟨rfl, rfl, rfl⟩

/-- C5 (amended): FromCore is total (no error channel); entries under
canonical events outside the tool's eventMapping are dropped silently — each
FromCore is invariant under restricting the config to its mapped events —
and entries under mapped events are emitted up to hook-level degradation:
claude emits every hook, cursor and windsurf emit exactly the hooks with a
non-empty command. -/
theorem c5_fromCore_drop_unmapped_events (cfg : Config) :
    (claudeFromCore cfg = claudeFromCore (cfg.restrictEvents claudeMapped)) ∧
    (cursorFromCore cfg = cursorFromCore (cfg.restrictEvents cursorMapped)) ∧
    (windsurfFromCore cfg = windsurfFromCore (cfg.restrictEvents windsurfMapped)) ∧
    claudeNativeCount (claudeFromCore cfg) = cfg.countHooksUnder claudeMapped (fun _ => 1) ∧
    cursorNativeCount (cursorFromCore cfg)
      = cfg.countHooksUnder cursorMapped (fun h => if h.command ≠ "" then 1 else 0) ∧
    windsurfNativeCount (windsurfFromCore cfg)
      = cfg.countHooksUnder windsurfMapped (fun h => if h.command ≠ "" then 1 else 0) := by
  refine ⟨claudeFromCore_restrict cfg, cursorFromCore_restrict cfg,
    windsurfFromCore_restrict cfg, ?_, ?_, ?_⟩
  · show smTotal (claudeFromCore cfg).hooks (fun en => en.hooks.length) = _
    rw [claudeFromCore_hooks, smTotal_build]
    show 0 + _ = _
    rw [Nat.zero_add, claudeFromPairs_weight, countHooksUnder_one]
  · show smTotal (cursorFromCore cfg).hooks (fun _ => 1) = _
    rw [cursorFromCore_hooks, smTotal_build]
    show 0 + _ = _
    rw [Nat.zero_add, sum_map_one, simpleFromPairs_length]
    rfl
  · show smTotal (windsurfFromCore cfg).hooks (fun _ => 1) = _
    rw [windsurfFromCore_hooks, smTotal_build]
    show 0 + _ = _
    rw [Nat.zero_add, sum_map_one, simpleFromPairs_length]
    rfl

/-! # Claim C1 machinery: per-event facts and hook round-trips -/

theorem claudeHook_roundtrip (h : Hook) (ht : h.type = "command" ∨ h.type = "prompt")
    (hs : h.showOutput = false) (hw : h.workingDir = "") :
    claudeHookToCore (claudeHookFromCore h) = h := by
  obtain ⟨t, c, pr, ti, so, wd⟩ := h
  simp only at ht hs hw
  subst hs; subst hw
  rcases ht with rfl | rfl <;> simp [claudeHookFromCore, claudeHookToCore]

theorem cursorHook_roundtrip (h : Hook) (ht : h.type = "command") (hp : h.prompt = "")
    (hti : h.timeout = 0) (hs : h.showOutput = false) (hw : h.workingDir = "") :
    cursorHookToCore ({ command := h.command } : CursorHook) = h := by
  obtain ⟨t, c, pr, ti, so, wd⟩ := h
  simp only at ht hp hti hs hw
  subst ht; subst hp; subst hti; subst hs; subst hw
  rfl

theorem windsurfHook_roundtrip (h : Hook) (ht : h.type = "command") (hp : h.prompt = "")
    (hti : h.timeout = 0) :
    windsurfHookToCore
      ({ command := h.command, showOutput := h.showOutput,
         workingDirectory := h.workingDir } : WindsurfHook) = h := by
  obtain ⟨t, c, pr, ti, so, wd⟩ := h
  simp only at ht hp hti
  subst ht; subst hp; subst hti
  rfl

set_option linter.unreachableTactic false in
set_option linter.unusedTactic false in
theorem claude_roundKey (e : Event) (h : (getToolSupport e).claude = true) :
    (canonicalToClaudeEvent e).1 ≠ "" ∧
    (canonicalToClaudeEvent e).2 = claudeDefaultMatcher e ∧
    claudeToCanonicalEvent (canonicalToClaudeEvent e).1 (claudeDefaultMatcher e) = e := by
  by_cases h1 : e = BeforeFileRead
  · subst h1; first | decide | exact absurd h (by decide)
  by_cases h2 : e = AfterFileRead
  · subst h2; first | decide | exact absurd h (by decide)
  by_cases h3 : e = BeforeFileWrite
  · subst h3; first | decide | exact absurd h (by decide)
  by_cases h4 : e = AfterFileWrite
  · subst h4; first | decide | exact absurd h (by decide)
  by_cases h5 : e = BeforeCommand
  · subst h5; first | decide | exact absurd h (by decide)
  by_cases h6 : e = AfterCommand
  · subst h6; first | decide | exact absurd h (by decide)
  by_cases h7 : e = BeforeMCP
  · subst h7; first | decide | exact absurd h (by decide)
  by_cases h8 : e = AfterMCP
  · subst h8; first | decide | exact absurd h (by decide)
  by_cases h9 : e = BeforePrompt
  · subst h9; first | decide | exact absurd h (by decide)
  by_cases h10 : e = OnStop
  · subst h10; first | decide | exact absurd h (by decide)
  by_cases h11 : e = OnSessionStart
  · subst h11; first | decide | exact absurd h (by decide)
  by_cases h12 : e = OnSessionEnd
  · subst h12; first | decide | exact absurd h (by decide)
  by_cases h13 : e = AfterResponse
  · subst h13; first | decide | exact absurd h (by decide)
  by_cases h14 : e = AfterThought
  · subst h14; first | decide | exact absurd h (by decide)
  by_cases h15 : e = OnPermission
  · subst h15; first | decide | exact absurd h (by decide)
  by_cases h16 : e = OnNotification
  · subst h16; first | decide | exact absurd h (by decide)
  by_cases h17 : e = BeforeCompact
  · subst h17; first | decide | exact absurd h (by decide)
  by_cases h18 : e = OnSubagentStop
  · subst h18; first | decide | exact absurd h (by decide)
  by_cases h19 : e = BeforeTabRead
  · subst h19; first | decide | exact absurd h (by decide)
  by_cases h20 : e = AfterTabEdit
  · subst h20; first | decide | exact absurd h (by decide)
  unfold getToolSupport at h
  rw [if_neg h1, if_neg h2, if_neg h3, if_neg h4, if_neg h5, if_neg h6, if_neg h7, if_neg h8, if_neg h9, if_neg h10, if_neg h11, if_neg h12, if_neg h13, if_neg h14, if_neg h15, if_neg h16, if_neg h17, if_neg h18, if_neg h19, if_neg h20] at h
  exact absurd h (by decide)

theorem cursor_coh (e : Event) (k : String) (hek : cursorEventMapping e = some k) :
    cursorReverseEventMapping k = some e := by
  unfold cursorEventMapping at hek
  by_cases h1 : e = BeforeFileRead
  · rw [if_pos h1] at hek; cases hek; subst h1; decide
  rw [if_neg h1] at hek
  by_cases h2 : e = AfterFileWrite
  · rw [if_pos h2] at hek; cases hek; subst h2; decide
  rw [if_neg h2] at hek
  by_cases h3 : e = BeforeCommand
  · rw [if_pos h3] at hek; cases hek; subst h3; decide
  rw [if_neg h3] at hek
  by_cases h4 : e = AfterCommand
  · rw [if_pos h4] at hek; cases hek; subst h4; decide
  rw [if_neg h4] at hek
  by_cases h5 : e = BeforeMCP
  · rw [if_pos h5] at hek; cases hek; subst h5; decide
  rw [if_neg h5] at hek
  by_cases h6 : e = AfterMCP
  · rw [if_pos h6] at hek; cases hek; subst h6; decide
  rw [if_neg h6] at hek
  by_cases h7 : e = BeforePrompt
  · rw [if_pos h7] at hek; cases hek; subst h7; decide
  rw [if_neg h7] at hek
  by_cases h8 : e = OnStop
  · rw [if_pos h8] at hek; cases hek; subst h8; decide
  rw [if_neg h8] at hek
  by_cases h9 : e = AfterResponse
  · rw [if_pos h9] at hek; cases hek; subst h9; decide
  rw [if_neg h9] at hek
  by_cases h10 : e = AfterThought
  · rw [if_pos h10] at hek; cases hek; subst h10; decide
  rw [if_neg h10] at hek
  by_cases h11 : e = BeforeTabRead
  · rw [if_pos h11] at hek; cases hek; subst h11; decide
  rw [if_neg h11] at hek
  by_cases h12 : e = AfterTabEdit
  · rw [if_pos h12] at hek; cases hek; subst h12; decide
  rw [if_neg h12] at hek
  cases hek

theorem windsurf_coh (e : Event) (k : String) (hek : windsurfEventMapping e = some k) :
    windsurfReverseEventMapping k = some e := by
  unfold windsurfEventMapping at hek
  by_cases h1 : e = BeforeFileRead
  · rw [if_pos h1] at hek; cases hek; subst h1; decide
  rw [if_neg h1] at hek
  by_cases h2 : e = AfterFileRead
  · rw [if_pos h2] at hek; cases hek; subst h2; decide
  rw [if_neg h2] at hek
  by_cases h3 : e = BeforeFileWrite
  · rw [if_pos h3] at hek; cases hek; subst h3; decide
  rw [if_neg h3] at hek
  by_cases h4 : e = AfterFileWrite
  · rw [if_pos h4] at hek; cases hek; subst h4; decide
  rw [if_neg h4] at hek
  by_cases h5 : e = BeforeCommand
  · rw [if_pos h5] at hek; cases hek; subst h5; decide
  rw [if_neg h5] at hek
  by_cases h6 : e = AfterCommand
  · rw [if_pos h6] at hek; cases hek; subst h6; decide
  rw [if_neg h6] at hek
  by_cases h7 : e = BeforeMCP
  · rw [if_pos h7] at hek; cases hek; subst h7; decide
  rw [if_neg h7] at hek
  by_cases h8 : e = AfterMCP
  · rw [if_pos h8] at hek; cases hek; subst h8; decide
  rw [if_neg h8] at hek
  by_cases h9 : e = BeforePrompt
  · rw [if_pos h9] at hek; cases hek; subst h9; decide
  rw [if_neg h9] at hek
  cases hek

theorem filterMap_map_own {a b c : Type} (f : a → b) (g : b → Option c) (l : List a) :
    (l.map f).filterMap g = l.filterMap (fun x => g (f x)) := by
  induction l with
  | nil => rfl
  | cons x rest ih =>
    rw [List.map_cons, List.filterMap_cons, List.filterMap_cons]
    cases g (f x) <;> simp [ih]

theorem keys_filterMap_ne_nil {α : Type} (ps : List (String × α)) (k : String) :
    k ∈ ps.map (·.1) ↔ ps.filterMap (keyFM k) ≠ [] := by
  induction ps with
  | nil => simp
  | cons p rest ih =>
    rw [List.map_cons, List.mem_cons, List.filterMap_cons]
    by_cases hk : p.1 = k
    · simp [keyFM, hk]
    · have : keyFM k p = none := by simp [keyFM, hk]
      rw [this]
      simp only [ih]
      constructor
      · rintro (h | h)
        · exact absurd h.symm hk
        · exact h
      · exact Or.inr

theorem entriesHooksFor_all_empty_matcher (l : List HookEntry) (m : String)
    (hm : m ≠ "") (h : ∀ en ∈ l, en.matcher = "") :
    entriesHooksFor l m = [] := by
  induction l with
  | nil => rfl
  | cons en rest ih =>
    have he : en.matcher = "" := h en (List.mem_cons_self _ _)
    show (if en.matcher = m then en.hooks else []) ++ _ = []
    rw [he, if_neg (Ne.symm hm), List.nil_append]
    exact ih (fun x hx => h x (List.mem_cons_of_mem _ hx))

/-- Concatenation of all hooks in an entry list. -/
theorem entriesHooksFor_matcher_const (l : List HookEntry) (m : String)
    (h : ∀ en ∈ l, en.matcher = m) :
    entriesHooksFor l m = l.foldr (fun en acc => en.hooks ++ acc) [] := by
  induction l with
  | nil => rfl
  | cons en rest ih =>
    have he : en.matcher = m := h en (List.mem_cons_self _ _)
    show (if en.matcher = m then en.hooks else []) ++ _ = _
    rw [if_pos he, List.foldr_cons]
    rw [ih (fun x hx => h x (List.mem_cons_of_mem _ hx))]

theorem filterMap_eq_self_of {a : Type} (l : List a) (f : a → Option a)
    (h : ∀ x ∈ l, f x = some x) : l.filterMap f = l := by
  induction l with
  | nil => rfl
  | cons x rest ih =>
    rw [List.filterMap_cons, h x (List.mem_cons_self _ _)]
    rw [ih (fun y hy => h y (List.mem_cons_of_mem _ hy))]

theorem filterMap_eq_nil_of {a b : Type} (l : List a) (f : a → Option b)
    (h : ∀ x ∈ l, f x = none) : l.filterMap f = [] := by
  induction l with
  | nil => rfl
  | cons x rest ih =>
    rw [List.filterMap_cons, h x (List.mem_cons_self _ _)]
    exact ih (fun y hy => h y (List.mem_cons_of_mem _ hy))

theorem claudeToPairs_eq_flat (l : StrMap (List ClaudeHookEntry)) :
    claudeToPairs l = (smFlat l).map (fun q =>
      (claudeToCanonicalEvent q.1 q.2.matcher,
       ({ matcher := q.2.matcher, hooks := q.2.hooks.map claudeHookToCore } : HookEntry))) := by
  induction l with
  | nil => rfl
  | cons p rest ih =>
    show (p.2.map _) ++ claudeToPairs rest = ((p.2.map (fun v => (p.1, v))) ++ smFlat rest).map _
    rw [List.map_append, ih, List.map_map]
    rfl

/-- Every pair emitted by `claudeFromPairs` on a claude-normal config comes
from a supported source event, carries its Claude key and default matcher,
and disambiguates back to that source event. -/
theorem claudeFromPairs_mem (l : StrMap (List HookEntry))
    (hprops : ∀ p ∈ l, (getToolSupport p.1).claude = true ∧
      ∀ en ∈ p.2, en.matcher = claudeDefaultMatcher p.1)
    (q : String × ClaudeHookEntry) (hq : q ∈ claudeFromPairs l) :
    ∃ e₀, e₀ ∈ smKeys l ∧ (getToolSupport e₀).claude = true ∧
      q.1 = (canonicalToClaudeEvent e₀).1 ∧
      q.2.matcher = claudeDefaultMatcher e₀ ∧
      claudeToCanonicalEvent q.1 q.2.matcher = e₀ := by
  induction l with
  | nil => cases hq
  | cons p rest ih =>
    have hp := hprops p (List.mem_cons_self _ _)
    rw [show claudeFromPairs (p :: rest) = _ ++ claudeFromPairs rest from rfl,
      List.mem_append] at hq
    rcases hq with hq | hq
    · by_cases hc : (canonicalToClaudeEvent p.1).1 = ""
      · rw [if_pos hc] at hq; cases hq
      · rw [if_neg hc] at hq
        obtain ⟨en, hen, rfl⟩ := List.mem_map.mp hq
        obtain ⟨-, h2, h3⟩ := claude_roundKey p.1 hp.1
        have hm := hp.2 en hen
        have hmatch : (if en.matcher = "" then (canonicalToClaudeEvent p.1).2
            else en.matcher) = claudeDefaultMatcher p.1 := by
          by_cases hme : en.matcher = ""
          · rw [if_pos hme]; exact h2
          · rw [if_neg hme]; exact hm
        refine ⟨p.1, ?_, hp.1, rfl, hmatch, ?_⟩
        · exact List.mem_cons_self _ _
        · show claudeToCanonicalEvent (canonicalToClaudeEvent p.1).1 _ = p.1
          rw [hmatch]
          exact h3
    · obtain ⟨e₀, hk, hs, h1, h2, h3⟩ :=
        ih (fun p' h' => hprops p' (List.mem_cons_of_mem _ h')) hq
      exact ⟨e₀, List.mem_cons_of_mem _ hk, hs, h1, h2, h3⟩

theorem claudeFromPairs_filter_none (l : StrMap (List HookEntry)) (e : Event)
    (hprops : ∀ p ∈ l, (getToolSupport p.1).claude = true ∧
      ∀ en ∈ p.2, en.matcher = claudeDefaultMatcher p.1)
    (he : ∀ p ∈ l, p.1 ≠ e) :
    (claudeFromPairs l).filterMap (fun q =>
      if claudeToCanonicalEvent q.1 q.2.matcher = e
      then some ({ matcher := q.2.matcher,
                   hooks := q.2.hooks.map claudeHookToCore } : HookEntry)
      else none) = [] := by
  apply filterMap_eq_nil_of
  intro q hq
  obtain ⟨e₀, hk, hs, h1, h2, h3⟩ := claudeFromPairs_mem l hprops q hq
  rw [if_neg]
  intro hEq
  rw [h3] at hEq
  subst hEq
  obtain ⟨p, hp, hp1⟩ := List.mem_map.mp hk
  exact he p hp hp1

/-- The back-conversion of a claude-normal config's emitted pairs, filtered
to canonical event `e`, is exactly the original entry list under `e`. -/
theorem claudeFromPairs_filter_back (l : StrMap (List HookEntry)) (e : Event)
    (hnodup : (smKeys l).Nodup)
    (hprops : ∀ p ∈ l, (getToolSupport p.1).claude = true ∧
      ∀ en ∈ p.2, en.matcher = claudeDefaultMatcher p.1 ∧
        ∀ h ∈ en.hooks, (h.type = "command" ∨ h.type = "prompt") ∧
          h.showOutput = false ∧ h.workingDir = "") :
    (claudeFromPairs l).filterMap (fun q =>
      if claudeToCanonicalEvent q.1 q.2.matcher = e
      then some ({ matcher := q.2.matcher,
                   hooks := q.2.hooks.map claudeHookToCore } : HookEntry)
      else none) = smGetD l e [] := by
  have hprops2 : ∀ p ∈ l, (getToolSupport p.1).claude = true ∧
      ∀ en ∈ p.2, en.matcher = claudeDefaultMatcher p.1 :=
    fun p hp => ⟨(hprops p hp).1, fun en hen => ((hprops p hp).2 en hen).1⟩
  induction l with
  | nil => rfl
  | cons p rest ih =>
    obtain ⟨hsupp, hentries⟩ := hprops p (List.mem_cons_self _ _)
    obtain ⟨hne, hcem2, hback⟩ := claude_roundKey p.1 hsupp
    have hnodup2 : p.1 ∉ smKeys rest ∧ (smKeys rest).Nodup := by
      simpa [smKeys] using hnodup
    have hmatch : ∀ en ∈ p.2, (if en.matcher = "" then (canonicalToClaudeEvent p.1).2
        else en.matcher) = claudeDefaultMatcher p.1 := by
      intro en hen
      by_cases hme : en.matcher = ""
      · rw [if_pos hme]; exact hcem2
      · rw [if_neg hme]; exact (hentries en hen).1
    rw [show claudeFromPairs (p :: rest) = _ ++ claudeFromPairs rest from rfl,
      List.filterMap_append, if_neg hne, filterMap_map_own]
    by_cases hpe : p.1 = e
    · have hblock : p.2.filterMap (fun en =>
          if claudeToCanonicalEvent (canonicalToClaudeEvent p.1).1
              (if en.matcher = "" then (canonicalToClaudeEvent p.1).2 else en.matcher) = e
          then some ({ matcher := if en.matcher = "" then (canonicalToClaudeEvent p.1).2
                         else en.matcher,
                       hooks := (en.hooks.map claudeHookFromCore).map claudeHookToCore }
                     : HookEntry)
          else none) = p.2 := by
        apply filterMap_eq_self_of
        intro en hen
        rw [hmatch en hen, hback, if_pos hpe]
        have hhooks : (en.hooks.map claudeHookFromCore).map claudeHookToCore = en.hooks := by
          rw [List.map_map]
          have : ∀ h ∈ en.hooks, claudeHookToCore (claudeHookFromCore h) = h := by
            intro h hh
            obtain ⟨ht, hso, hwd⟩ := (hentries en hen).2 h hh
            exact claudeHook_roundtrip h ht hso hwd
          calc en.hooks.map (claudeHookToCore ∘ claudeHookFromCore)
              = en.hooks.map id := List.map_congr_left (fun h hh => this h hh)
            _ = en.hooks := List.map_id en.hooks
        rw [hhooks, ← (hentries en hen).1]
      have hrest : (claudeFromPairs rest).filterMap (fun q =>
          if claudeToCanonicalEvent q.1 q.2.matcher = e
          then some ({ matcher := q.2.matcher,
                       hooks := q.2.hooks.map claudeHookToCore } : HookEntry)
          else none) = [] := by
        apply claudeFromPairs_filter_none rest e
          (fun p' h' => hprops2 p' (List.mem_cons_of_mem _ h'))
        intro p' hp' hcontra
        apply hnodup2.1
        rw [hpe, ← hcontra]
        exact List.mem_map_of_mem (·.1) hp'
      rw [hblock, hrest, List.append_nil]
      have : smGetD (p :: rest) e [] = p.2 := by simp [smGetD, smGet, hpe]
      rw [this]
    · have hblock : p.2.filterMap (fun en =>
          if claudeToCanonicalEvent (canonicalToClaudeEvent p.1).1
              (if en.matcher = "" then (canonicalToClaudeEvent p.1).2 else en.matcher) = e
          then some ({ matcher := if en.matcher = "" then (canonicalToClaudeEvent p.1).2
                         else en.matcher,
                       hooks := (en.hooks.map claudeHookFromCore).map claudeHookToCore }
                     : HookEntry)
          else none) = [] := by
        apply filterMap_eq_nil_of
        intro en hen
        rw [hmatch en hen, hback, if_neg hpe]
      have : smGetD (p :: rest) e [] = smGetD rest e [] := by simp [smGetD, smGet, hpe]
      rw [hblock, List.nil_append, this]
      exact ih hnodup2.2 (fun p' h' => hprops p' (List.mem_cons_of_mem _ h'))
        (fun p' h' => hprops2 p' (List.mem_cons_of_mem _ h'))

theorem claude_roundtrip_getD (cfg : Config) (hnf : claudeNormalForm cfg) (e : Event) :
    smGetD (claudeToCore (claudeFromCore cfg)).hooks e [] = smGetD cfg.hooks e [] := by
  obtain ⟨hnodup, hprops⟩ := hnf
  have hprops2 : ∀ p ∈ cfg.hooks, (getToolSupport p.1).claude = true ∧
      ∀ en ∈ p.2, en.matcher = claudeDefaultMatcher p.1 :=
    fun p hp => ⟨(hprops p hp).1, fun en hen => ((hprops p hp).2 en hen).1⟩
  have hfc : (claudeFromCore cfg).hooks = smBuild (claudeFromPairs cfg.hooks) [] :=
    claudeFromCore_hooks cfg
  have hnodupFC : (smKeys (claudeFromCore cfg).hooks).Nodup := by
    rw [hfc]
    exact smKeys_build_nodup _ _ (by simp [smKeys])
  rw [claudeToCore_hooks, smGetD_build]
  show ([] : List HookEntry) ++ _ = _
  rw [List.nil_append, claudeToPairs_eq_flat, filterMap_map_own]
  show (smFlat (claudeFromCore cfg).hooks).filterMap (fun q =>
      if claudeToCanonicalEvent q.1 q.2.matcher = e
      then some ({ matcher := q.2.matcher,
                   hooks := q.2.hooks.map claudeHookToCore } : HookEntry)
      else none) = smGetD cfg.hooks e []
  by_cases hsupp : (getToolSupport e).claude = true
  · have hrestr2 : ∀ q ∈ claudeFromPairs cfg.hooks, q.1 ≠ (canonicalToClaudeEvent e).1 →
        (if claudeToCanonicalEvent q.1 q.2.matcher = e
         then some ({ matcher := q.2.matcher,
                      hooks := q.2.hooks.map claudeHookToCore } : HookEntry)
         else none) = none := by
      intro q hq hne
      obtain ⟨e₀, hk0, hs0, h1, h2, h3⟩ := claudeFromPairs_mem cfg.hooks hprops2 q hq
      rw [if_neg]
      intro hEq
      rw [h3] at hEq
      subst hEq
      exact hne h1
    have hrestr : ∀ q ∈ smFlat (claudeFromCore cfg).hooks,
        q.1 ≠ (canonicalToClaudeEvent e).1 →
        (if claudeToCanonicalEvent q.1 q.2.matcher = e
         then some ({ matcher := q.2.matcher,
                      hooks := q.2.hooks.map claudeHookToCore } : HookEntry)
         else none) = none := by
      intro q hq hne
      rw [hfc] at hq
      exact hrestr2 q (mem_of_smFlat_build _ q hq) hne
    rw [filterMap_key_restrict _ _ (canonicalToClaudeEvent e).1 hrestr,
      smFlat_filterMap _ _ hnodupFC, hfc, smGetD_build]
    show ((([] : List ClaudeHookEntry) ++ _).filterMap _) = _
    rw [List.nil_append, ← filterMap_key_restrict _ _ (canonicalToClaudeEvent e).1 hrestr2]
    exact claudeFromPairs_filter_back cfg.hooks e hnodup hprops
  · have hL : (smFlat (claudeFromCore cfg).hooks).filterMap (fun q =>
        if claudeToCanonicalEvent q.1 q.2.matcher = e
        then some ({ matcher := q.2.matcher,
                     hooks := q.2.hooks.map claudeHookToCore } : HookEntry)
        else none) = [] := by
      apply filterMap_eq_nil_of
      intro q hq
      rw [hfc] at hq
      obtain ⟨e₀, hk0, hs0, h1, h2, h3⟩ :=
        claudeFromPairs_mem cfg.hooks hprops2 q (mem_of_smFlat_build _ q hq)
      rw [if_neg]
      intro hEq
      rw [h3] at hEq
      subst hEq
      exact hsupp hs0
    have hR : smGetD cfg.hooks e [] = [] := by
      have : smGet cfg.hooks e = none := by
        rw [smGet_eq_none_iff]
        intro hmem
        obtain ⟨p, hp, hp1⟩ := List.mem_map.mp hmem
        rw [← hp1] at hsupp
        exact hsupp (hprops2 p hp).1
      simp [smGetD, this]
    rw [hL, hR]

theorem claude_roundtrip_count (cfg : Config) (hnf : claudeNormalForm cfg) :
    (claudeToCore (claudeFromCore cfg)).hookCount = cfg.hookCount := by
  obtain ⟨hnodup, hprops⟩ := hnf
  have h1 : (claudeToCore (claudeFromCore cfg)).hookCount
      = claudeNativeCount (claudeFromCore cfg) := by
    show smTotal _ _ = _
    rw [claudeToCore_hooks, smTotal_build]
    show 0 + _ = _
    rw [Nat.zero_add, claudeToPairs_weight]
    rfl
  have h2 : claudeNativeCount (claudeFromCore cfg)
      = ((cfg.hooks.filter (fun p => claudeMapped p.1)).map
          (fun p => (p.2.map (fun en => en.hooks.length)).sum)).sum := by
    show smTotal _ _ = _
    rw [claudeFromCore_hooks, smTotal_build]
    show 0 + _ = _
    rw [Nat.zero_add, claudeFromPairs_weight]
  have h3 : cfg.hooks.filter (fun p => claudeMapped p.1) = cfg.hooks := by
    rw [List.filter_eq_self]
    intro p hp
    have hne := (claude_roundKey p.1 (hprops p hp).1).1
    simp [claudeMapped, hne]
  rw [h1, h2, h3]
  rfl

theorem filterMap_eq_map_of {a b : Type} (l : List a) (f : a → Option b) (g : a → b)
    (h : ∀ x ∈ l, f x = some (g x)) : l.filterMap f = l.map g := by
  induction l with
  | nil => rfl
  | cons x rest ih =>
    rw [List.filterMap_cons, h x (List.mem_cons_self _ _), List.map_cons]
    rw [ih (fun y hy => h y (List.mem_cons_of_mem _ hy))]

theorem entryHooksPairs_mem {τ : Type} (k : String) (f : Hook → τ)
    (ens : List HookEntry) (q : String × τ) (hq : q ∈ entryHooksPairs k f ens) :
    q.1 = k := by
  induction ens with
  | nil => cases hq
  | cons en rest ih =>
    rw [show entryHooksPairs k f (en :: rest) = _ ++ entryHooksPairs k f rest from rfl,
      List.mem_append] at hq
    rcases hq with hq | hq
    · obtain ⟨h, hh, heq⟩ := List.mem_filterMap.mp hq
      by_cases hc : h.command ≠ ""
      · rw [if_pos hc] at heq
        cases heq
        rfl
      · rw [if_neg hc] at heq
        cases heq
    · exact ih hq

theorem simpleFromPairs_mem {τ : Type} (emap : Event → Option String) (f : Hook → τ)
    (l : StrMap (List HookEntry))
    (q : String × τ) (hq : q ∈ simpleFromPairs emap f l) :
    ∃ e₀, e₀ ∈ smKeys l ∧ emap e₀ = some q.1 := by
  induction l with
  | nil => cases hq
  | cons p rest ih =>
    cases hk : emap p.1 with
    | none =>
      rw [simpleFromPairs_cons_none emap f p rest hk] at hq
      obtain ⟨e₀, hk0, he0⟩ := ih hq
      exact ⟨e₀, List.mem_cons_of_mem _ hk0, he0⟩
    | some k =>
      rw [simpleFromPairs_cons_some emap f p rest k hk, List.mem_append] at hq
      rcases hq with hq | hq
      · have := entryHooksPairs_mem k f p.2 q hq
        exact ⟨p.1, List.mem_cons_self _ _, by rw [this]; exact hk⟩
      · obtain ⟨e₀, hk0, he0⟩ := ih hq
        exact ⟨e₀, List.mem_cons_of_mem _ hk0, he0⟩

theorem entryHooksPairs_filter_self {τ : Type} (k : String) (f : Hook → τ)
    (ens : List HookEntry) (hcmd : ∀ en ∈ ens, ∀ h ∈ en.hooks, h.command ≠ "") :
    (entryHooksPairs k f ens).filterMap (keyFM k)
      = (ens.foldr (fun en acc => en.hooks ++ acc) []).map f := by
  induction ens with
  | nil => rfl
  | cons en rest ih =>
    rw [show entryHooksPairs k f (en :: rest) = _ ++ entryHooksPairs k f rest from rfl,
      List.filterMap_append, List.foldr_cons, List.map_append]
    congr 1
    · have h1 : en.hooks.filterMap (fun h =>
          if h.command ≠ "" then some (k, f h) else none)
          = en.hooks.map (fun h => (k, f h)) :=
        filterMap_eq_map_of _ _ _
          (fun h hh => if_pos (hcmd en (List.mem_cons_self _ _) h hh))
      rw [h1, filterMap_map_own]
      exact filterMap_eq_map_of _ _ _ (fun h _ => by simp [keyFM])
    · exact ih (fun en' h' => hcmd en' (List.mem_cons_of_mem _ h'))

theorem entryHooksPairs_filter_ne {τ : Type} (k k' : String) (f : Hook → τ)
    (ens : List HookEntry) (hne : k ≠ k') :
    (entryHooksPairs k f ens).filterMap (keyFM k') = [] := by
  apply filterMap_eq_nil_of
  intro q hq
  have := entryHooksPairs_mem k f ens q hq
  simp [keyFM, this, hne]

theorem simpleFromPairs_filter_key {τ : Type} (emap : Event → Option String)
    (rmap : String → Option Event) (f : Hook → τ)
    (Hcoh : ∀ e k, emap e = some k → rmap k = some e)
    (l : StrMap (List HookEntry)) (e : Event) (kE : String) (hek : emap e = some kE)
    (hnodup : (smKeys l).Nodup)
    (hcmd : ∀ p ∈ l, ∀ en ∈ p.2, ∀ h ∈ en.hooks, h.command ≠ "") :
    (simpleFromPairs emap f l).filterMap (keyFM kE)
      = ((smGetD l e []).foldr (fun en acc => en.hooks ++ acc) []).map f := by
  induction l with
  | nil => rfl
  | cons p rest ih =>
    have hnodup2 : p.1 ∉ smKeys rest ∧ (smKeys rest).Nodup := by
      simpa [smKeys] using hnodup
    by_cases hpe : p.1 = e
    · have hk : emap p.1 = some kE := by rw [hpe]; exact hek
      rw [simpleFromPairs_cons_some emap f p rest kE hk, List.filterMap_append,
        entryHooksPairs_filter_self kE f p.2 (hcmd p (List.mem_cons_self _ _))]
      have hrest : (simpleFromPairs emap f rest).filterMap (keyFM kE) = [] := by
        apply filterMap_eq_nil_of
        intro q hq
        obtain ⟨e₀, hk0, he0⟩ := simpleFromPairs_mem emap f rest q hq
        have hqk : q.1 ≠ kE := by
          intro hqk
          rw [hqk] at he0
          have h1 := Hcoh e₀ kE he0
          have h2 := Hcoh e kE hek
          rw [h1] at h2
          injection h2 with h3
          subst h3
          exact hnodup2.1 (by rw [hpe]; exact hk0)
        simp [keyFM, hqk]
      rw [hrest, List.append_nil]
      have hgd : smGetD (p :: rest) e [] = p.2 := by simp [smGetD, smGet, hpe]
      rw [hgd]
    · cases hk : emap p.1 with
      | none =>
        rw [simpleFromPairs_cons_none emap f p rest hk]
        have hgd : smGetD (p :: rest) e [] = smGetD rest e [] := by
          simp [smGetD, smGet, hpe]
        rw [hgd]
        exact ih hnodup2.2 (fun p' h' => hcmd p' (List.mem_cons_of_mem _ h'))
      | some k0 =>
        have hkne : k0 ≠ kE := by
          intro hkk
          rw [hkk] at hk
          have h1 := Hcoh p.1 kE hk
          have h2 := Hcoh e kE hek
          rw [h1] at h2
          injection h2 with h3
          exact hpe h3
        rw [simpleFromPairs_cons_some emap f p rest k0 hk, List.filterMap_append,
          entryHooksPairs_filter_ne k0 kE f p.2 hkne, List.nil_append]
        have hgd : smGetD (p :: rest) e [] = smGetD rest e [] := by
          simp [smGetD, smGet, hpe]
        rw [hgd]
        exact ih hnodup2.2 (fun p' h' => hcmd p' (List.mem_cons_of_mem _ h'))

theorem simpleToPairs_mem {τ : Type} (rmap : String → Option Event) (g : τ → Hook)
    (M : StrMap (List τ)) (q : Event × HookEntry) (hq : q ∈ simpleToPairs rmap g M) :
    ∃ pr, pr ∈ M ∧ rmap pr.1 = some q.1 := by
  induction M with
  | nil => cases hq
  | cons pr rest ih =>
    cases hk : rmap pr.1 with
    | none =>
      rw [simpleToPairs_cons_none rmap g pr rest hk] at hq
      obtain ⟨pr', h1, h2⟩ := ih hq
      exact ⟨pr', List.mem_cons_of_mem _ h1, h2⟩
    | some e0 =>
      rw [simpleToPairs_cons_some rmap g pr rest e0 hk, List.mem_cons] at hq
      rcases hq with rfl | hq
      · exact ⟨pr, List.mem_cons_self _ _, hk⟩
      · obtain ⟨pr', h1, h2⟩ := ih hq
        exact ⟨pr', List.mem_cons_of_mem _ h1, h2⟩

theorem simpleToPairs_filterMap {τ : Type} (rmap : String → Option Event) (g : τ → Hook)
    (M : StrMap (List τ)) (e : Event) (kE : String)
    (hsome : ∀ pr ∈ M, (rmap pr.1).isSome)
    (hfact : ∀ pr ∈ M, ∀ e', rmap pr.1 = some e' → (e' = e ↔ pr.1 = kE))
    (hnodup : (smKeys M).Nodup) :
    (simpleToPairs rmap g M).filterMap (keyFM e) =
      (match smGet M kE with
       | some hs => [({ matcher := "", hooks := hs.map g } : HookEntry)]
       | none => ([] : List HookEntry)) := by
  induction M with
  | nil => rfl
  | cons pr rest ih =>
    have hnodup2 : pr.1 ∉ smKeys rest ∧ (smKeys rest).Nodup := by
      simpa [smKeys] using hnodup
    cases hk : rmap pr.1 with
    | none =>
      have := hsome pr (List.mem_cons_self _ _)
      rw [hk] at this
      simp at this
    | some e0 =>
      rw [simpleToPairs_cons_some rmap g pr rest e0 hk]
      have hiff := hfact pr (List.mem_cons_self _ _) e0 hk
      by_cases he : e0 = e
      · have hprk : pr.1 = kE := hiff.mp he
        have hkey : keyFM e ((e0, ({ matcher := "", hooks := pr.2.map g } : HookEntry))
            : Event × HookEntry)
            = some ({ matcher := "", hooks := pr.2.map g } : HookEntry) := by
          simp [keyFM, he]
        have hrest : (simpleToPairs rmap g rest).filterMap (keyFM e) = [] := by
          apply filterMap_eq_nil_of
          intro q hq
          obtain ⟨pr', h1, h2⟩ := simpleToPairs_mem rmap g rest q hq
          have hq1 : q.1 ≠ e := by
            intro hq1
            rw [hq1] at h2
            have := (hfact pr' (List.mem_cons_of_mem _ h1) e h2).mp rfl
            apply hnodup2.1
            rw [hprk, ← this]
            exact List.mem_map_of_mem (·.1) h1
          simp [keyFM, hq1]
        simp only [List.filterMap_cons, hkey, hrest]
        have hget : smGet (pr :: rest) kE = some pr.2 := by simp [smGet, hprk]
        rw [hget]
      · have hprk : pr.1 ≠ kE := fun hc => he (hiff.mpr hc)
        have hkey : keyFM e ((e0, ({ matcher := "", hooks := pr.2.map g } : HookEntry))
            : Event × HookEntry) = none := by
          simp [keyFM, he]
        simp only [List.filterMap_cons, hkey]
        have hget : smGet (pr :: rest) kE = smGet rest kE := by simp [smGet, hprk]
        rw [hget]
        exact ih (fun pr' h' => hsome pr' (List.mem_cons_of_mem _ h'))
          (fun pr' h' => hfact pr' (List.mem_cons_of_mem _ h')) hnodup2.2

theorem mem_foldr_flatten (l : List HookEntry) (h : Hook)
    (hm : h ∈ l.foldr (fun en acc => en.hooks ++ acc) []) :
    ∃ en ∈ l, h ∈ en.hooks := by
  induction l with
  | nil => cases hm
  | cons en rest ih =>
    rw [List.foldr_cons, List.mem_append] at hm
    rcases hm with hm | hm
    · exact ⟨en, List.mem_cons_self _ _, hm⟩
    · obtain ⟨en', h1, h2⟩ := ih hm
      exact ⟨en', List.mem_cons_of_mem _ h1, h2⟩

theorem simple_roundtrip_hooksFor {τ : Type} (emap : Event → Option String)
    (rmap : String → Option Event) (f : Hook → τ) (g : τ → Hook)
    (Hcoh : ∀ e k, emap e = some k → rmap k = some e)
    (l : StrMap (List HookEntry))
    (hnodup : (smKeys l).Nodup)
    (hsome : ∀ p ∈ l, (emap p.1).isSome)
    (hmat : ∀ p ∈ l, ∀ en ∈ p.2, en.matcher = "")
    (hcmd : ∀ p ∈ l, ∀ en ∈ p.2, ∀ h ∈ en.hooks, h.command ≠ "")
    (hgf : ∀ p ∈ l, ∀ en ∈ p.2, ∀ h ∈ en.hooks, g (f h) = h)
    (e : Event) (m : String) :
    entriesHooksFor (smGetD (smBuild (simpleToPairs rmap g
      (smBuild (simpleFromPairs emap f l) [])) []) e []) m
    = entriesHooksFor (smGetD l e []) m := by
  have hnodupM : (smKeys (smBuild (simpleFromPairs emap f l) [])).Nodup :=
    smKeys_build_nodup _ _ (by simp [smKeys])
  have hMkey : ∀ pr ∈ smBuild (simpleFromPairs emap f l) [],
      ∃ e₀, e₀ ∈ smKeys l ∧ emap e₀ = some pr.1 := by
    intro pr hpr
    have h1 : pr.1 ∈ smKeys (smBuild (simpleFromPairs emap f l) []) :=
      List.mem_map_of_mem (·.1) hpr
    rw [mem_smKeys_build] at h1
    rcases h1 with h1 | h1
    · simp [smKeys] at h1
    · obtain ⟨q, hq, hq1⟩ := List.mem_map.mp h1
      obtain ⟨e₀, hk0, he0⟩ := simpleFromPairs_mem emap f l q hq
      exact ⟨e₀, hk0, by rw [he0, hq1]⟩
  have hsomeM : ∀ pr ∈ smBuild (simpleFromPairs emap f l) [], (rmap pr.1).isSome := by
    intro pr hpr
    obtain ⟨e₀, _, he0⟩ := hMkey pr hpr
    rw [Hcoh e₀ pr.1 he0]
    rfl
  have hmatE : ∀ en ∈ smGetD l e [], en.matcher = "" := by
    intro en hen
    cases hsg : smGet l e with
    | none => simp [smGetD, hsg] at hen
    | some entries =>
      exact hmat (e, entries) (mem_of_smGet l e entries hsg) en
        (by simpa [smGetD, hsg] using hen)
  have hgfE : ∀ h ∈ (smGetD l e []).foldr (fun en acc => en.hooks ++ acc) [],
      g (f h) = h := by
    intro h hh
    obtain ⟨en, hen, hh2⟩ := mem_foldr_flatten _ h hh
    cases hsg : smGet l e with
    | none => simp [smGetD, hsg] at hen
    | some entries =>
      exact hgf (e, entries) (mem_of_smGet l e entries hsg) en
        (by simpa [smGetD, hsg] using hen) h hh2
  rw [smGetD_build]
  show entriesHooksFor (([] : List HookEntry) ++ _) m = _
  rw [List.nil_append]
  cases hE : emap e with
  | none =>
    have hL : (simpleToPairs rmap g (smBuild (simpleFromPairs emap f l) [])).filterMap
        (keyFM e) = [] := by
      apply filterMap_eq_nil_of
      intro q hq
      obtain ⟨pr, hpr, hr⟩ := simpleToPairs_mem rmap g _ q hq
      obtain ⟨e₀, hk0, he0⟩ := hMkey pr hpr
      have hre : rmap pr.1 = some e₀ := Hcoh e₀ pr.1 he0
      rw [hre] at hr
      injection hr with hr1
      have hq1 : q.1 ≠ e := by
        intro hq1
        rw [hr1, hq1] at he0
        rw [hE] at he0
        cases he0
      simp [keyFM, hq1]
    rw [hL]
    have hR : smGetD l e [] = [] := by
      have hn : smGet l e = none := by
        rw [smGet_eq_none_iff]
        intro hmem
        obtain ⟨p, hp, hp1⟩ := List.mem_map.mp hmem
        have hx := hsome p hp
        rw [hp1, hE] at hx
        simp at hx
      simp [smGetD, hn]
    rw [hR]
  | some kE =>
    have hfactM : ∀ pr ∈ smBuild (simpleFromPairs emap f l) [],
        ∀ e', rmap pr.1 = some e' → (e' = e ↔ pr.1 = kE) := by
      intro pr hpr e' hre
      obtain ⟨e₀, hk0, he0⟩ := hMkey pr hpr
      have h1 : rmap pr.1 = some e₀ := Hcoh e₀ pr.1 he0
      rw [h1] at hre
      injection hre with hre1
      subst hre1
      constructor
      · intro h2
        rw [h2] at he0
        rw [hE] at he0
        injection he0 with h3
        exact h3.symm
      · intro h2
        rw [h2] at he0
        have h3 := Hcoh e₀ kE he0
        have h4 := Hcoh e kE hE
        rw [h3] at h4
        exact Option.some.inj h4
    rw [simpleToPairs_filterMap rmap g _ e kE hsomeM hfactM hnodupM]
    have hflat := simpleFromPairs_filter_key emap rmap f Hcoh l e kE hE hnodup hcmd
    cases hget : smGet (smBuild (simpleFromPairs emap f l) []) kE with
    | none =>
      have hkne : kE ∉ (simpleFromPairs emap f l).map (·.1) := by
        intro hmem
        rw [smGet_eq_none_iff] at hget
        apply hget
        rw [mem_smKeys_build]
        exact Or.inr hmem
      have hfps : (simpleFromPairs emap f l).filterMap (keyFM kE) = [] := by
        by_contra hne
        exact hkne ((keys_filterMap_ne_nil _ kE).mpr hne)
      rw [hfps] at hflat
      have hflat2 : (smGetD l e []).foldr (fun en acc => en.hooks ++ acc) [] = [] := by
        have h2 := hflat.symm
        rwa [List.map_eq_nil_iff] at h2
      show entriesHooksFor ([] : List HookEntry) m = _
      by_cases hm : m = ""
      · subst hm
        rw [entriesHooksFor_matcher_const _ "" hmatE, hflat2]
        rfl
      · rw [entriesHooksFor_all_empty_matcher _ m hm hmatE]
        rfl
    | some hs =>
      have hs_eq : hs = ((smGetD l e []).foldr (fun en acc => en.hooks ++ acc) []).map f := by
        have h1 : smGetD (smBuild (simpleFromPairs emap f l) []) kE [] = hs := by
          simp [smGetD, hget]
        rw [smGetD_build] at h1
        rw [← hflat]
        simpa using h1.symm
      have hmapgf : hs.map g = (smGetD l e []).foldr (fun en acc => en.hooks ++ acc) [] := by
        rw [hs_eq, List.map_map]
        calc ((smGetD l e []).foldr (fun en acc => en.hooks ++ acc) []).map (g ∘ f)
            = ((smGetD l e []).foldr (fun en acc => en.hooks ++ acc) []).map id :=
              List.map_congr_left (fun h hh => hgfE h hh)
          _ = _ := List.map_id _
      show entriesHooksFor [({ matcher := "", hooks := hs.map g } : HookEntry)] m = _
      by_cases hm : m = ""
      · subst hm
        show (if ("" : String) = "" then hs.map g else []) ++ entriesHooksFor [] "" = _
        rw [if_pos rfl, hmapgf, entriesHooksFor_matcher_const _ "" hmatE]
        show _ ++ ([] : List Hook) = _
        rw [List.append_nil]
      · show (if ("" : String) = m then hs.map g else []) ++ entriesHooksFor [] m = _
        rw [if_neg (Ne.symm hm), entriesHooksFor_all_empty_matcher _ m hm hmatE]
        rfl

theorem simple_roundtrip_count {τ : Type} (emap : Event → Option String)
    (rmap : String → Option Event) (f : Hook → τ) (g : τ → Hook)
    (Hcoh : ∀ e k, emap e = some k → rmap k = some e)
    (l : StrMap (List HookEntry))
    (hsome : ∀ p ∈ l, (emap p.1).isSome)
    (hcmd : ∀ p ∈ l, ∀ en ∈ p.2, ∀ h ∈ en.hooks, h.command ≠ "") :
    smTotal (smBuild (simpleToPairs rmap g
      (smBuild (simpleFromPairs emap f l) [])) []) (fun en => en.hooks.length)
    = smTotal l (fun en => en.hooks.length) := by
  have hsomeM : ∀ pr ∈ smBuild (simpleFromPairs emap f l) [], (rmap pr.1).isSome := by
    intro pr hpr
    have h1 : pr.1 ∈ smKeys (smBuild (simpleFromPairs emap f l) []) :=
      List.mem_map_of_mem (·.1) hpr
    rw [mem_smKeys_build] at h1
    rcases h1 with h1 | h1
    · simp [smKeys] at h1
    · obtain ⟨q, hq, hq1⟩ := List.mem_map.mp h1
      obtain ⟨e₀, _, he0⟩ := simpleFromPairs_mem emap f l q hq
      have hre : rmap pr.1 = some e₀ := by
        rw [← hq1]
        exact Hcoh e₀ q.1 he0
      rw [hre]
      rfl
  rw [smTotal_build, simpleToPairs_weight,
    List.filter_eq_self.mpr (fun pr hpr => hsomeM pr hpr)]
  show 0 + _ = _
  rw [Nat.zero_add]
  have hM1 : ((smBuild (simpleFromPairs emap f l) []).map (fun p => p.2.length)).sum
      = smTotal (smBuild (simpleFromPairs emap f l) []) (fun _ => (1 : Nat)) := by
    unfold smTotal
    congr 1
    apply List.map_congr_left
    intro p _
    exact (sum_map_one p.2).symm
  rw [hM1, smTotal_build]
  show 0 + _ = _
  rw [Nat.zero_add]
  show ((simpleFromPairs emap f l).map (fun _ => (1 : Nat))).sum = _
  rw [sum_map_one, simpleFromPairs_length,
    List.filter_eq_self.mpr (fun p hp => hsome p hp)]
  show _ = (l.map (fun p => (p.2.map (fun en => en.hooks.length)).sum)).sum
  congr 1
  apply List.map_congr_left
  intro p hp
  congr 1
  apply List.map_congr_left
  intro en hen
  have hmap : en.hooks.map (fun h => if h.command ≠ "" then (1 : Nat) else 0)
      = en.hooks.map (fun _ => (1 : Nat)) := by
    apply List.map_congr_left
    intro h hh
    simp [hcmd p hp en hen h hh]
  rw [hmap, sum_map_one]

/-! # Claim C1: Parse∘Marshal roundtrip -/

/-- C1 counterexample: `exC1Config` holds a single matcher-less command hook
under `before_command` — a claude-supported event with a claude-supported
hook type — yet claude's Parse∘Marshal reassigns the hook to matcher "Bash"
(the default matcher claude's Marshal emits for that event), so the ordered
hook list at (`before_command`, "") is not preserved: the claim fails as
stated. -/
theorem c1_counterexample_claude_matcher :
    (∀ p ∈ exC1Config.hooks, (getToolSupport p.1).claude = true ∧
      ∀ en ∈ p.2, ∀ h ∈ en.hooks, h.type = "command" ∨ h.type = "prompt") ∧
    (claudeToCore (claudeFromCore exC1Config)).hooksFor BeforeCommand "" ≠
      exC1Config.hooksFor BeforeCommand "" := by
  constructor
  · decide
  · decide

/-- C1 (amended): Parse∘Marshal preserves the total hook count and every
per-(event, matcher) ordered hook list for configs in the tool's normal
form: unique event keys, only events the tool maps, entry matchers equal to
the tool's default matcher (claude's per-event default matcher; "" for
cursor and windsurf), and hooks of a supported type carrying only the
fields the tool round-trips. -/
theorem c1_roundtrip_normal_form (cfg : Config) :
    (claudeNormalForm cfg →
      (claudeToCore (claudeFromCore cfg)).hookCount = cfg.hookCount ∧
      ∀ e m, (claudeToCore (claudeFromCore cfg)).hooksFor e m = cfg.hooksFor e m) ∧
    (cursorNormalForm cfg →
      (cursorToCore (cursorFromCore cfg)).hookCount = cfg.hookCount ∧
      ∀ e m, (cursorToCore (cursorFromCore cfg)).hooksFor e m = cfg.hooksFor e m) ∧
    (windsurfNormalForm cfg →
      (windsurfToCore (windsurfFromCore cfg)).hookCount = cfg.hookCount ∧
      ∀ e m, (windsurfToCore (windsurfFromCore cfg)).hooksFor e m = cfg.hooksFor e m) := by
  refine ⟨fun hnf => ?_, fun hnf => ?_, fun hnf => ?_⟩
  · refine ⟨claude_roundtrip_count cfg hnf, fun e m => ?_⟩
    show entriesHooksFor (smGetD (claudeToCore (claudeFromCore cfg)).hooks e []) m
        = entriesHooksFor (smGetD cfg.hooks e []) m
    rw [claude_roundtrip_getD cfg hnf e]
  · obtain ⟨hnodup, hprops⟩ := hnf
    have hsome : ∀ p ∈ cfg.hooks, (cursorEventMapping p.1).isSome :=
      fun p hp => (hprops p hp).1
    have hmat : ∀ p ∈ cfg.hooks, ∀ en ∈ p.2, en.matcher = "" :=
      fun p hp en hen => ((hprops p hp).2 en hen).1
    have hcmd : ∀ p ∈ cfg.hooks, ∀ en ∈ p.2, ∀ h ∈ en.hooks, h.command ≠ "" :=
      fun p hp en hen h hh => (((hprops p hp).2 en hen).2 h hh).2.1
    have hgf : ∀ p ∈ cfg.hooks, ∀ en ∈ p.2, ∀ h ∈ en.hooks,
        cursorHookToCore ({ command := h.command } : CursorHook) = h := by
      intro p hp en hen h hh
      obtain ⟨ht, hc, hpr, hti, hso, hwd⟩ := ((hprops p hp).2 en hen).2 h hh
      exact cursorHook_roundtrip h ht hpr hti hso hwd
    constructor
    · show smTotal (cursorToCore (cursorFromCore cfg)).hooks (fun en => en.hooks.length)
          = smTotal cfg.hooks (fun en => en.hooks.length)
      rw [cursorToCore_hooks, cursorFromCore_hooks]
      exact simple_roundtrip_count _ _ _ _ cursor_coh cfg.hooks hsome hcmd
    · intro e m
      show entriesHooksFor (smGetD (cursorToCore (cursorFromCore cfg)).hooks e []) m
          = entriesHooksFor (smGetD cfg.hooks e []) m
      rw [cursorToCore_hooks, cursorFromCore_hooks]
      exact simple_roundtrip_hooksFor _ _ _ _ cursor_coh cfg.hooks
        hnodup hsome hmat hcmd hgf e m
  · obtain ⟨hnodup, hprops⟩ := hnf
    have hsome : ∀ p ∈ cfg.hooks, (windsurfEventMapping p.1).isSome :=
      fun p hp => (hprops p hp).1
    have hmat : ∀ p ∈ cfg.hooks, ∀ en ∈ p.2, en.matcher = "" :=
      fun p hp en hen => ((hprops p hp).2 en hen).1
    have hcmd : ∀ p ∈ cfg.hooks, ∀ en ∈ p.2, ∀ h ∈ en.hooks, h.command ≠ "" :=
      fun p hp en hen h hh => (((hprops p hp).2 en hen).2 h hh).2.1
    have hgf : ∀ p ∈ cfg.hooks, ∀ en ∈ p.2, ∀ h ∈ en.hooks,
        windsurfHookToCore ({ command := h.command, showOutput := h.showOutput, workingDirectory := h.workingDir } : WindsurfHook) = h := by
      intro p hp en hen h hh
      obtain ⟨ht, hc, hpr, hti⟩ := ((hprops p hp).2 en hen).2 h hh
      exact windsurfHook_roundtrip h ht hpr hti
    constructor
    · show smTotal (windsurfToCore (windsurfFromCore cfg)).hooks (fun en => en.hooks.length)
          = smTotal cfg.hooks (fun en => en.hooks.length)
      rw [windsurfToCore_hooks, windsurfFromCore_hooks]
      exact simple_roundtrip_count _ _ _ _ windsurf_coh cfg.hooks hsome hcmd
    · intro e m
      show entriesHooksFor (smGetD (windsurfToCore (windsurfFromCore cfg)).hooks e []) m
          = entriesHooksFor (smGetD cfg.hooks e []) m
      rw [windsurfToCore_hooks, windsurfFromCore_hooks]
      exact simple_roundtrip_hooksFor _ _ _ _ windsurf_coh cfg.hooks
        hnodup hsome hmat hcmd hgf e m

/-- C1 witness: the amended roundtrip at concrete normal-form configs —
`exC1Claude` (claude-normal) and `exC1Cursor` (cursor- and
windsurf-normal). -/
theorem c1_roundtrip_normal_form_witness :
    (claudeToCore (claudeFromCore exC1Claude)).hookCount = exC1Claude.hookCount ∧
    (claudeToCore (claudeFromCore exC1Claude)).hooksFor BeforeCommand "Bash"
      = exC1Claude.hooksFor BeforeCommand "Bash" ∧
    (cursorToCore (cursorFromCore exC1Cursor)).hookCount = exC1Cursor.hookCount ∧
    (cursorToCore (cursorFromCore exC1Cursor)).hooksFor BeforeMCP ""
      = exC1Cursor.hooksFor BeforeMCP "" ∧
    (windsurfToCore (windsurfFromCore exC1Cursor)).hookCount = exC1Cursor.hookCount :=
  ⟨((c1_roundtrip_normal_form exC1Claude).1 (by unfold claudeNormalForm; decide)).1,
   ((c1_roundtrip_normal_form exC1Claude).1
     (by unfold claudeNormalForm; decide)).2 BeforeCommand "Bash",
   ((c1_roundtrip_normal_form exC1Cursor).2.1 (by unfold cursorNormalForm; decide)).1,
   ((c1_roundtrip_normal_form exC1Cursor).2.1
     (by unfold cursorNormalForm; decide)).2 BeforeMCP "",
   ((c1_roundtrip_normal_form exC1Cursor).2.2
     (by unfold windsurfNormalForm; decide)).1⟩
